/-
Verification of the dynamic identity-indexed columnar storage engine of the
starsim repository.

The embedding covers:
  * `DynamicView`    — the growable backing buffer (src/starsim/states.py, class DynamicView),
  * `FusedArray`     — the identifier-indexed column view (src/starsim/states.py, class FusedArray),
  * `StateD`         — a registered column: a DynamicView plus a fill policy
                       (src/starsim/states.py, class State),
  * `People`         — the population coordinator (src/removing_people.py, class DynamicPeople),
                       whose columns are starsim `State`s.

Machine integers are modelled as `Nat`; the removed-identifier sentinel is
`INT_NAN = 2^63 - 1` (np.iinfo(int).max, src/starsim/utils.INT_NAN).  NumPy
arrays are modelled as `List`s; a NumPy view of the first `n` elements of a
buffer is `List.take n`.  Error-raising operations return explicit error
values; operations that in the source mutate an array in place return the
new array contents.
-/
import Mathlib

namespace Starsim

/-- np.iinfo(int).max, used by the source to flag a removed UID inside an
integer array ("an integer value we are treating like NaN"). -/
def INT_NAN : Nat := 2 ^ 63 - 1

/-! ### List helpers

`setMany l ps` models a sequence of NumPy element assignments
`l[i] = v` for `(i, v)` in `ps`, performed left to right (this is the
semantics of fancy-index assignment `l[inds] = vals`, whose last write wins
on duplicate indices).  `List.set` is a no-op out of range; in every use
below the indices are proved in range. -/

def setMany (l : List α) : List (Nat × α) → List α
  | [] => l
  | (i, v) :: ps => setMany (l.set i v) ps

@[simp] theorem setMany_nil (l : List α) : setMany l [] = l := rfl

@[simp] theorem setMany_cons (l : List α) (i : Nat) (v : α) (ps : List (Nat × α)) :
    setMany l ((i, v) :: ps) = setMany (l.set i v) ps := rfl

theorem setMany_length (l : List α) (ps : List (Nat × α)) :
    (setMany l ps).length = l.length := by
  induction ps generalizing l with
  | nil => rfl
  | cons p ps ih => cases p with | mk i v => simpa [setMany] using ih (l.set i v)

theorem getD_setMany_not_mem (l : List α) (ps : List (Nat × α)) (i : Nat) (d : α)
    (h : i ∉ ps.map Prod.fst) :
    (setMany l ps).getD i d = l.getD i d := by
  induction ps generalizing l with
  | nil => rfl
  | cons p ps ih =>
    cases p with
    | mk j v =>
      simp only [List.map_cons, List.mem_cons] at h
      push_neg at h
      rw [setMany_cons, ih _ h.2, List.getD_eq_getElem?_getD, List.getD_eq_getElem?_getD,
        List.getElem?_set_ne (fun hj => h.1 hj.symm)]

theorem getD_setMany_mem_nodup (l : List α) (ps : List (Nat × α)) (i : Nat) (v : α) (d : α)
    (hnd : (ps.map Prod.fst).Nodup) (hmem : (i, v) ∈ ps) (hilen : i < l.length) :
    (setMany l ps).getD i d = v := by
  induction ps generalizing l with
  | nil => cases hmem
  | cons p ps ih =>
    cases p with
    | mk j w =>
      simp only [List.map_cons, List.nodup_cons] at hnd
      rcases List.mem_cons.mp hmem with h | h
      · cases h
        rw [setMany_cons, getD_setMany_not_mem _ _ _ _ hnd.1,
          List.getD_eq_getElem?_getD, List.getElem?_set_self hilen]
        rfl
      · rw [setMany_cons, ih _ hnd.2 h (by simpa using hilen)]

theorem drop_setMany (l : List α) (ps : List (Nat × α)) (n : Nat)
    (h : ∀ q ∈ ps, q.1 < n) :
    (setMany l ps).drop n = l.drop n := by
  induction ps generalizing l with
  | nil => rfl
  | cons p ps ih =>
    cases p with
    | mk j v =>
      rw [setMany_cons, ih _ (fun q hq => h q (List.mem_cons_of_mem _ hq)),
        List.drop_set_of_lt _ _ (h (j, v) (List.mem_cons_self _ _))]

theorem take_set_comm (l : List α) (j n : Nat) (v : α) :
    (l.set j v).take n = (l.take n).set j v :=
  List.ext_getElem? fun i => by
    simp only [List.getElem?_take, List.getElem?_set']
    by_cases h1 : i < n <;> by_cases h2 : j = i <;> simp [h1, h2]

theorem take_setMany (l : List α) (ps : List (Nat × α)) (n : Nat) :
    (setMany l ps).take n = setMany (l.take n) ps := by
  induction ps generalizing l with
  | nil => rfl
  | cons p ps ih =>
    cases p with
    | mk j v => rw [setMany_cons, ih, take_set_comm, setMany_cons]

/-- Gathering with `getD` along `List.range n` recovers `take n`. -/
theorem map_getD_range (l : List α) (n : Nat) (d : α) (h : n ≤ l.length) :
    (List.range n).map (fun i => l.getD i d) = l.take n := by
  apply List.ext_getElem
  · simpa using h
  · intro i h1 h2
    simp only [List.getElem_map, List.getElem_range, List.getElem_take]
    have hi : i < l.length := by
      have := List.length_take n l
      omega
    rw [List.getD_eq_getElem?_getD, List.getElem?_eq_getElem hi]
    rfl

theorem getD_default_irrel (l : List α) (i : Nat) (d d' : α) (h : i < l.length) :
    l.getD i d = l.getD i d' := by
  rw [List.getD_eq_getElem?_getD, List.getD_eq_getElem?_getD, List.getElem?_eq_getElem h]
  rfl

/-- The two boolean partitions of a list by a predicate account for its length. -/
theorem length_filter_not_add (l : List α) (q : α → Bool) :
    (l.filter (fun a => !(q a))).length + (l.filter q).length = l.length := by
  induction l with
  | nil => rfl
  | cons a l ih =>
    by_cases h : q a <;> simp [List.filter_cons, h, ← ih] <;> omega

/-! ### DynamicView — the growable backing buffer

Embeds `class DynamicView` of src/starsim/states.py.  `data` is `_data`
(the underlying allocation), `n` the logical length, and the live view
`_view = _data[:n]` is `view`.  The source keeps `_view` as a NumPy view of
`_data`; here it is recomputed from `data` and `n`. -/

structure DynamicView (α : Type) where
  fill_value : α
  n : Nat
  data : List α
deriving Repr, DecidableEq

namespace DynamicView

/-- `_view = self._data[:self.n]` (method `_map_arrays`). -/
def view (dv : DynamicView α) : List α := dv.data.take dv.n

/-- `DynamicView.grow`:
if `self.n + n > self._s`, append `max(n, int(self._s / 2))` fill-valued
slots ("Minimum 50% growth"); then `self.n += n`.  Python's `int(s / 2)`
is floor division for the buffer sizes at hand, i.e. `Nat` division. -/
def grow (dv : DynamicView α) (k : Nat) : DynamicView α :=
  let data1 := if dv.n + k > dv.data.length
               then dv.data ++ List.replicate (max k (dv.data.length / 2)) dv.fill_value
               else dv.data
  { dv with n := dv.n + k, data := data1 }

/-- `DynamicView._trim(inds)`:
`self._data[:n] = self._data[inds]; self._data[n:self.n] = self.fill_value;
self.n = n` where `n = len(inds)`.  NumPy evaluates the gather
`self._data[inds]` before writing (a copy), which the functional
construction mirrors.  The `getD` default is never consulted when every
index is in range (the only way the source call does not raise). -/
def trim (dv : DynamicView α) (inds : List Nat) : DynamicView α :=
  let m := inds.length
  { dv with
    n := m
    data := (inds.map (fun i => dv.data.getD i dv.fill_value))
            ++ List.replicate (dv.n - m) dv.fill_value
            ++ dv.data.drop (max dv.n m) }

/-- Fancy-index assignment on the view: `self._view[inds] = vals`
elementwise (used via `DynamicView.__setitem__`).  Since the view is the
prefix of `data`, in-range view writes are writes to `data`. -/
def setPos (dv : DynamicView α) (inds : List Nat) (vals : List α) : DynamicView α :=
  { dv with data := setMany dv.data (inds.zip vals) }

/-- Full-slice assignment `self._view[:] = c`: every live position becomes `c`. -/
def fillView (dv : DynamicView α) (c : α) : DynamicView α :=
  { dv with data := List.replicate dv.n c ++ dv.data.drop dv.n }

/-- Well-formedness: the logical length never exceeds the allocation. -/
def WF (dv : DynamicView α) : Prop := dv.n ≤ dv.data.length

theorem view_length (dv : DynamicView α) (h : dv.WF) : dv.view.length = dv.n := by
  simpa [view] using h

@[simp] theorem grow_n (dv : DynamicView α) (k : Nat) : (dv.grow k).n = dv.n + k := rfl

@[simp] theorem grow_fill (dv : DynamicView α) (k : Nat) :
    (dv.grow k).fill_value = dv.fill_value := rfl

theorem grow_data_length (dv : DynamicView α) (k : Nat) :
    (dv.grow k).data.length =
      if dv.n + k > dv.data.length
      then dv.data.length + max k (dv.data.length / 2)
      else dv.data.length := by
  by_cases h : dv.n + k > dv.data.length <;> simp [grow, h]

theorem grow_WF (dv : DynamicView α) (k : Nat) (h : dv.WF) : (dv.grow k).WF := by
  unfold WF at h ⊢
  rw [grow_n, grow_data_length]
  by_cases hc : dv.n + k > dv.data.length <;> simp [hc] <;> omega

theorem grow_data_getD (dv : DynamicView α) (k : Nat) (i : Nat) (d : α)
    (h : i < dv.data.length) :
    (dv.grow k).data.getD i d = dv.data.getD i d := by
  unfold grow
  by_cases hc : dv.n + k > dv.data.length
  · simp only [hc, if_pos, List.getD_eq_getElem?_getD]
    rw [List.getElem?_append_left h]
  · simp [hc]

theorem grow_view_getD (dv : DynamicView α) (k : Nat) (i : Nat) (d : α)
    (hwf : dv.WF) (h : i < dv.n) :
    (dv.grow k).view.getD i d = dv.view.getD i d := by
  unfold view
  rw [List.getD_eq_getElem?_getD, List.getD_eq_getElem?_getD,
    List.getElem?_take_of_lt (show i < (dv.grow k).n by rw [grow_n]; omega),
    List.getElem?_take_of_lt h, ← List.getD_eq_getElem?_getD, ← List.getD_eq_getElem?_getD,
    grow_data_getD _ _ _ _ (by unfold WF at hwf; omega)]

end DynamicView

/-- Claim C8 (buffer growth policy), proved of `DynamicView.grow`: growing a
buffer of logical length `n` and capacity `s` by `k` leaves the capacity
unchanged when `n + k ≤ s` and otherwise extends it by exactly
`max k (s / 2)`; the pre-existing allocation is copied unchanged into the
front of the new one, the logical length becomes `n + k`, and the capacity
never shrinks. -/
theorem C8_buffer_growth_policy (dv : DynamicView α) (k : Nat) :
    (dv.grow k).n = dv.n + k ∧
    (dv.grow k).data.length =
      (if dv.n + k ≤ dv.data.length then dv.data.length
       else dv.data.length + max k (dv.data.length / 2)) ∧
    (dv.grow k).data.take dv.data.length = dv.data ∧
    dv.data.length ≤ (dv.grow k).data.length := by
  refine ⟨rfl, ?_, ?_, ?_⟩
  · rw [DynamicView.grow_data_length]
    by_cases h : dv.n + k > dv.data.length
    · rw [if_pos h, if_neg (by omega)]
    · rw [if_neg h, if_pos (by omega)]
  · unfold DynamicView.grow
    by_cases h : dv.n + k > dv.data.length
    · simp [h, List.take_left]
    · simp [h]
  · rw [DynamicView.grow_data_length]
    by_cases h : dv.n + k > dv.data.length <;> simp [h]

/-! ### FusedArray — the identifier-indexed column view

Embeds `class FusedArray` of src/starsim/states.py.  `values` is the live
data, `uid` the identifier owning each position, and `uid_map` the
(shared or local) translation array `uid -> position`, with `INT_NAN`
marking an identifier with no live position.

The source signals failures with Python exceptions; the embedding returns
explicit error values.  All the `IndexError`s arising from identifier
translation ("UID not present in array", both with and without the
capacity remark) are `identifierNotFound`; an `IndexError` from a plain
position or value-array access is `indexOOB`; the
"Attempted to write to a non-existant index" `Exception` is
`nonexistentWrite`; a NumPy broadcast shape `ValueError` is
`dimensionMismatch`; the "Slicing not supported" `Exception` is
`unsupportedSlice`. -/

inductive SErr where
  | identifierNotFound
  | indexOOB
  | nonexistentWrite
  | dimensionMismatch
  | unsupportedSlice
deriving Repr, DecidableEq

structure FusedArray (α : Type) where
  values : List α
  uid : List Nat
  uid_map : List Nat
deriving Repr, DecidableEq

instance : Inhabited (FusedArray α) := ⟨⟨[], [], []⟩⟩

/-- An indexing key: a single identifier, an identifier array (NumPy array
or plain list — the source converts the latter with `np.fromiter` and then
treats both alike), a boolean mask, or a slice with optional
start/stop/step. -/
inductive Key where
  | uid (u : Nat)
  | uids (us : List Nat)
  | mask (m : List Bool)
  | slice (first last step : Option Int)
deriving Repr, DecidableEq

/-- A value being assigned: a scalar (broadcast) or an array. -/
inductive Val (α : Type) where
  | scalar (c : α)
  | arr (vs : List α)
deriving Repr, DecidableEq

/-- Result of `__getitem__`: a scalar for a single-identifier key,
otherwise a new FusedArray. -/
inductive GetRes (α : Type) where
  | scalar (c : α)
  | arr (fa : FusedArray α)
deriving Repr, DecidableEq

instance : Inhabited (GetRes α) := ⟨.arr default⟩

instance [DecidableEq ε] [DecidableEq β] : DecidableEq (Except ε β) := fun a b =>
  match a, b with
  | .ok x, .ok y =>
    if h : x = y then .isTrue (by rw [h]) else .isFalse (by simp [h])
  | .error x, .error y =>
    if h : x = y then .isTrue (by rw [h]) else .isFalse (by simp [h])
  | .ok _, .error _ => .isFalse (by simp)
  | .error _, .ok _ => .isFalse (by simp)

/-- Positions at which a boolean mask is `True`: `key.nonzero()[0]`. -/
def truePos (m : List Bool) : List Nat :=
  (List.range m.length).filter (fun i => m.getD i false)

theorem truePos_lt (m : List Bool) : ∀ i ∈ truePos m, i < m.length := by
  intro i hi
  have := (List.mem_filter.mp hi).1
  simpa using this

namespace FusedArray

/-- `FusedArray._get_vals_uids` (numba loop): walk the requested UIDs,
translating each through `uid_map`; abort with an error at the first UID
with no live position; accumulate the gathered values and the new UID map
(initially all `INT_NAN`) for the resulting FusedArray.  `i` is the loop
counter, `out`/`acc` the accumulated values and new map. -/
def getValsUids [Inhabited α] (vals : List α) (uid_map : List Nat) :
    List Nat → Nat → List α → List Nat → Except SErr (List α × List Nat)
  | [], _, out, acc => .ok (out, acc)
  | k :: ks, i, out, acc =>
    if k < uid_map.length then
      let idx := uid_map.getD k 0
      if idx = INT_NAN then .error .identifierNotFound
      else if idx < vals.length then
        getValsUids vals uid_map ks (i + 1) (out ++ [vals.getD idx default]) (acc.set k i)
      else .error .identifierNotFound
    else .error .identifierNotFound

/-- `FusedArray._set_vals_uids_multiple` (numba loop): write `value[i]` to
the position of `key[i]`, left to right; the source checks, in order,
`key[i] >= len(uid_map)`, `idx == INT_NAN`, `idx >= len(vals)`, and only
then evaluates `value[i]` (which raises if the value array is shorter than
the key).  The writes performed before a failure persist. -/
def setValsUidsMultiple (uid_map : List Nat) :
    List Nat → List α → List α → List α × Option SErr
  | [], _, vals => (vals, none)
  | k :: ks, value, vals =>
    if k < uid_map.length then
      let idx := uid_map.getD k 0
      if idx = INT_NAN then (vals, some .identifierNotFound)
      else if idx < vals.length then
        match value with
        | [] => (vals, some .indexOOB)
        | v :: value1 => setValsUidsMultiple uid_map ks value1 (vals.set idx v)
      else (vals, some .nonexistentWrite)
    else (vals, some .identifierNotFound)

/-- `FusedArray._set_vals_uids_single` (numba loop): write the scalar `c`
to the position of every `key[i]`, with the same checks as the multiple
variant. -/
def setValsUidsSingle (uid_map : List Nat) (c : α) :
    List Nat → List α → List α × Option SErr
  | [], vals => (vals, none)
  | k :: ks, vals =>
    if k < uid_map.length then
      let idx := uid_map.getD k 0
      if idx = INT_NAN then (vals, some .identifierNotFound)
      else if idx < vals.length then
        setValsUidsSingle uid_map c ks (vals.set idx c)
      else (vals, some .nonexistentWrite)
    else (vals, some .identifierNotFound)

/-- `FusedArray.__getitem__`.
* single UID: `self.values[self._uid_map[key]]`;
* boolean mask: gather by the mask's `True` positions and build the new
  UID map (`new_uid_map[uids] = np.arange(len(uids))`);
* integer array / list: `_get_vals_uids`;
* the unrestricted slice `[:]` returns a copy (`sc.dcp(self)`); any other
  slice raises.  -/
def getitem [Inhabited α] (fa : FusedArray α) : Key → Except SErr (GetRes α)
  | .uid u =>
    if u < fa.uid_map.length then
      let idx := fa.uid_map.getD u 0
      if idx = INT_NAN then .error .identifierNotFound
      else if idx < fa.values.length then .ok (.scalar (fa.values.getD idx default))
      else .error .identifierNotFound
    else .error .identifierNotFound
  | .uids us =>
    match getValsUids fa.values fa.uid_map us 0 [] (List.replicate fa.uid_map.length INT_NAN) with
    | .ok (out, acc) => .ok (.arr ⟨out, us, acc⟩)
    | .error e => .error e
  | .mask m =>
    let pos := truePos m
    if ∀ i ∈ pos, i < fa.uid.length then
      let uidsSel := pos.map (fun i => fa.uid.getD i 0)
      if ∀ w ∈ uidsSel, w < fa.uid_map.length then
        if ∀ i ∈ pos, i < fa.values.length then
          .ok (.arr ⟨pos.map (fun i => fa.values.getD i default),
                     uidsSel,
                     setMany (List.replicate fa.uid_map.length INT_NAN)
                       (uidsSel.zip (List.range uidsSel.length))⟩)
        else .error .indexOOB
      else .error .indexOOB
    else .error .indexOOB
  | .slice a b c =>
    if a = none ∧ b = none ∧ c = none then .ok (.arr fa)
    else .error .unsupportedSlice

/-- `FusedArray.__setitem__`.  Returns the FusedArray with its (possibly
partially) updated `values` together with the error raised, if any.
* single UID: `self.values[self._uid_map[key]] = value` (an array value
  broadcasts only when it has length 1);
* boolean mask: `self.values[key.nonzero()[0]] = value` — NumPy
  establishes the broadcast shape first, then writes;
* integer array / list: `_set_vals_uids_multiple` / `_set_vals_uids_single`;
* unrestricted slice `[:]`: full-view assignment; any other slice raises. -/
def setitem [Inhabited α] (fa : FusedArray α) : Key → Val α → FusedArray α × Option SErr
  | .uid u, v =>
    if u < fa.uid_map.length then
      let idx := fa.uid_map.getD u 0
      if idx = INT_NAN then (fa, some .identifierNotFound)
      else if idx < fa.values.length then
        match v with
        | .scalar c => ({ fa with values := fa.values.set idx c }, none)
        | .arr vs =>
          if vs.length = 1 then ({ fa with values := fa.values.set idx (vs.getD 0 default) }, none)
          else (fa, some .dimensionMismatch)
      else (fa, some .indexOOB)
    else (fa, some .identifierNotFound)
  | .uids us, .scalar c =>
    let r := setValsUidsSingle fa.uid_map c us fa.values
    ({ fa with values := r.1 }, r.2)
  | .uids us, .arr vs =>
    let r := setValsUidsMultiple fa.uid_map us vs fa.values
    ({ fa with values := r.1 }, r.2)
  | .mask m, v =>
    let pos := truePos m
    let vs1 := match v with
               | .scalar c => List.replicate pos.length c
               | .arr vs =>
                 if vs.length = 1 then List.replicate pos.length (vs.getD 0 default) else vs
    if vs1.length = pos.length then
      if ∀ i ∈ pos, i < fa.values.length then
        ({ fa with values := setMany fa.values (pos.zip vs1) }, none)
      else (fa, some .indexOOB)
    else (fa, some .dimensionMismatch)
  | .slice a b c, v =>
    if a = none ∧ b = none ∧ c = none then
      match v with
      | .scalar w => ({ fa with values := List.replicate fa.values.length w }, none)
      | .arr vs =>
        if vs.length = fa.values.length then ({ fa with values := vs }, none)
        else if vs.length = 1 then
          ({ fa with values := List.replicate fa.values.length (vs.getD 0 default) }, none)
        else (fa, some .dimensionMismatch)
    else (fa, some .unsupportedSlice)

/-- Well-formedness of a column view: one owning identifier per live
position, and every identifier within the UID map's capacity. -/
def WF (fa : FusedArray α) : Prop :=
  fa.uid.length = fa.values.length ∧ ∀ u ∈ fa.uid, u < fa.uid_map.length

end FusedArray

/-- An identifier with no live position in a given UID map: either beyond
the map's capacity or flagged with the `INT_NAN` sentinel. -/
def Dead (uid_map : List Nat) (u : Nat) : Prop :=
  uid_map.length ≤ u ∨ uid_map.getD u 0 = INT_NAN

/-- An identifier resolving to a live position of a value buffer of length
`nvals`. -/
def LiveAt (uid_map : List Nat) (nvals : Nat) (u : Nat) : Prop :=
  u < uid_map.length ∧ uid_map.getD u 0 ≠ INT_NAN ∧ uid_map.getD u 0 < nvals

/-- Claim C5 (slice semantics), proved of `FusedArray.getitem` and
`FusedArray.setitem`: the unrestricted full slice returns a copy of the
whole live view, while any partial (bounded or stepped) slice is rejected
with the slicing error on both get and set, leaving the data unchanged. -/
theorem C5_slice_semantics [Inhabited α] (fa : FusedArray α)
    (a b c : Option Int) (v : Val α) (hp : ¬(a = none ∧ b = none ∧ c = none)) :
    fa.getitem (Key.slice none none none) = .ok (.arr fa) ∧
    fa.getitem (Key.slice a b c) = .error .unsupportedSlice ∧
    fa.setitem (Key.slice a b c) v = (fa, some .unsupportedSlice) := by
  refine ⟨by simp [FusedArray.getitem], ?_, ?_⟩
  · simp [FusedArray.getitem, hp]
  · cases v <;> simp [FusedArray.setitem, hp]

instance (uid_map : List Nat) (u : Nat) : Decidable (Dead uid_map u) := by
  unfold Dead; infer_instance

instance (uid_map : List Nat) (nvals u : Nat) : Decidable (LiveAt uid_map nvals u) := by
  unfold LiveAt; infer_instance

theorem LiveAt.not_dead {uid_map : List Nat} {nvals u : Nat}
    (h : LiveAt uid_map nvals u) : ¬ Dead uid_map u := by
  rintro (hd | hd)
  · exact absurd h.1 (by omega)
  · exact h.2.1 hd

theorem FusedArray.getValsUids_error [Inhabited α] (vals : List α) (m : List Nat)
    (ks : List Nat) (i : Nat) (out : List α) (acc : List Nat)
    (hall : ∀ w ∈ ks, Dead m w ∨ LiveAt m vals.length w)
    (hex : ∃ w ∈ ks, Dead m w) :
    getValsUids vals m ks i out acc = .error .identifierNotFound := by
  induction ks generalizing i out acc with
  | nil => obtain ⟨w, hw, _⟩ := hex; cases hw
  | cons k ks ih =>
    rcases hall k (List.mem_cons_self _ _) with hd | hl
    · rcases hd with hd | hd
      · rw [getValsUids, if_neg (by omega)]
      · by_cases hk : k < m.length
        · rw [getValsUids, if_pos hk, if_pos hd]
        · rw [getValsUids, if_neg hk]
    · obtain ⟨hk, hnan, hlt⟩ := hl
      rw [getValsUids, if_pos hk, if_neg hnan, if_pos hlt]
      refine ih _ _ _ (fun w hw => hall w (List.mem_cons_of_mem _ hw)) ?_
      obtain ⟨w, hw, hwd⟩ := hex
      rcases List.mem_cons.mp hw with rfl | hw
      · exact absurd hwd (LiveAt.not_dead ⟨hk, hnan, hlt⟩)
      · exact ⟨w, hw, hwd⟩

theorem FusedArray.setValsUidsSingle_error [Inhabited α] (m : List Nat) (c : α)
    (ks : List Nat) (vals : List α)
    (hall : ∀ w ∈ ks, Dead m w ∨ LiveAt m vals.length w)
    (hex : ∃ w ∈ ks, Dead m w) :
    (setValsUidsSingle m c ks vals).2 = some .identifierNotFound := by
  induction ks generalizing vals with
  | nil => obtain ⟨w, hw, _⟩ := hex; cases hw
  | cons k ks ih =>
    rcases hall k (List.mem_cons_self _ _) with hd | hl
    · rcases hd with hd | hd
      · rw [setValsUidsSingle, if_neg (by omega)]
      · by_cases hk : k < m.length
        · rw [setValsUidsSingle, if_pos hk, if_pos hd]
        · rw [setValsUidsSingle, if_neg hk]
    · obtain ⟨hk, hnan, hlt⟩ := hl
      rw [setValsUidsSingle, if_pos hk, if_neg hnan, if_pos hlt]
      refine ih _ (fun w hw => ?_) ?_
      · simpa [List.length_set] using hall w (List.mem_cons_of_mem _ hw)
      · obtain ⟨w, hw, hwd⟩ := hex
        rcases List.mem_cons.mp hw with rfl | hw
        · exact absurd hwd (LiveAt.not_dead ⟨hk, hnan, hlt⟩)
        · exact ⟨w, hw, hwd⟩

theorem FusedArray.setValsUidsMultiple_error [Inhabited α] (m : List Nat)
    (ks : List Nat) (value vals : List α)
    (hall : ∀ w ∈ ks, Dead m w ∨ LiveAt m vals.length w)
    (hex : ∃ w ∈ ks, Dead m w) (hlen : ks.length ≤ value.length) :
    (setValsUidsMultiple m ks value vals).2 = some .identifierNotFound := by
  induction ks generalizing value vals with
  | nil => obtain ⟨w, hw, _⟩ := hex; cases hw
  | cons k ks ih =>
    rcases hall k (List.mem_cons_self _ _) with hd | hl
    · rcases hd with hd | hd
      · rw [setValsUidsMultiple, if_neg (by omega)]
      · by_cases hk : k < m.length
        · rw [setValsUidsMultiple, if_pos hk, if_pos hd]
        · rw [setValsUidsMultiple, if_neg hk]
    · obtain ⟨hk, hnan, hlt⟩ := hl
      cases value with
      | nil => simp at hlen
      | cons v value1 =>
        rw [setValsUidsMultiple, if_pos hk, if_neg hnan, if_pos hlt]
        refine ih _ _ (fun w hw => ?_) ?_ (by simpa using hlen)
        · simpa [List.length_set] using hall w (List.mem_cons_of_mem _ hw)
        · obtain ⟨w, hw, hwd⟩ := hex
          rcases List.mem_cons.mp hw with rfl | hw
          · exact absurd hwd (LiveAt.not_dead ⟨hk, hnan, hlt⟩)
          · exact ⟨w, hw, hwd⟩

/-- Claim C6 (fail-fast on missing identifiers), proved of
`FusedArray.getitem`/`FusedArray.setitem`: a get or set keyed by an
identifier, or by an identifier array containing at least one identifier
with no live position (never issued, beyond the UID map's capacity, or
removed — all covered by `Dead`), raises the identifier-not-found error;
it neither returns a value nor writes a default for that identifier. -/
theorem C6_fail_fast [Inhabited α] (fa : FusedArray α) (u : Nat) (us : List Nat)
    (vs : List α) (c : α)
    (hdead : Dead fa.uid_map u) (hmem : u ∈ us)
    (hall : ∀ w ∈ us, Dead fa.uid_map w ∨ LiveAt fa.uid_map fa.values.length w)
    (hvs : vs.length = us.length) :
    fa.getitem (.uid u) = .error .identifierNotFound ∧
    (fa.setitem (.uid u) (.scalar c)).2 = some .identifierNotFound ∧
    fa.getitem (.uids us) = .error .identifierNotFound ∧
    (fa.setitem (.uids us) (.scalar c)).2 = some .identifierNotFound ∧
    (fa.setitem (.uids us) (.arr vs)).2 = some .identifierNotFound := by
  refine ⟨?_, ?_, ?_, ?_, ?_⟩
  · rcases hdead with hd | hd
    · rw [FusedArray.getitem, if_neg (by omega)]
    · by_cases hk : u < fa.uid_map.length
      · rw [FusedArray.getitem, if_pos hk, if_pos hd]
      · rw [FusedArray.getitem, if_neg hk]
  · rcases hdead with hd | hd
    · rw [FusedArray.setitem, if_neg (by omega)]
    · by_cases hk : u < fa.uid_map.length
      · rw [FusedArray.setitem, if_pos hk, if_pos hd]
      · rw [FusedArray.setitem, if_neg hk]
  · rw [FusedArray.getitem,
      FusedArray.getValsUids_error fa.values fa.uid_map us 0 [] _ hall ⟨u, hmem, hdead⟩]
  · rw [FusedArray.setitem]
    exact FusedArray.setValsUidsSingle_error fa.uid_map c us fa.values hall ⟨u, hmem, hdead⟩
  · rw [FusedArray.setitem]
    exact FusedArray.setValsUidsMultiple_error fa.uid_map us vs fa.values hall
      ⟨u, hmem, hdead⟩ (by omega)

/-- Witness for C6 at a concrete column: identifier 1 was removed
(`uid_map[1] = INT_NAN`), so getting `[0, 1]` fails. -/
theorem C6_fail_fast_witness :
    (FusedArray.getitem ⟨[10, 30], [0, 2], [0, INT_NAN, 1]⟩ (.uid 1)
        = .error .identifierNotFound) ∧
    (FusedArray.getitem ⟨[10, 30], [0, 2], [0, INT_NAN, 1]⟩ (.uids [0, 1])
        = .error .identifierNotFound) := by
  have h := C6_fail_fast (α := Nat) ⟨[10, 30], [0, 2], [0, INT_NAN, 1]⟩ 1 [0, 1] [5, 6] 7
    (by right; decide) (by decide)
    (by decide)
    (by decide)
  exact ⟨h.1, h.2.2.1⟩

/-- Witness for C5: the full slice copies the column, the bounded slice
`0:2` is rejected. -/
theorem C5_slice_semantics_witness :
    (FusedArray.getitem (α := Nat) ⟨[10], [0], [0]⟩ (Key.slice none none none)
      = .ok (.arr ⟨[10], [0], [0]⟩)) ∧
    (FusedArray.getitem (α := Nat) ⟨[10], [0], [0]⟩ (Key.slice (some 0) (some 2) none)
      = .error .unsupportedSlice) := by
  have h := C5_slice_semantics (α := Nat) ⟨[10], [0], [0]⟩ (some 0) (some 2) none
    (.scalar 5) (by simp)
  exact ⟨h.1, h.2.1⟩

theorem getD_map_lt (f : α → β) (l : List α) (i : Nat) (d : β) (d' : α)
    (h : i < l.length) :
    (l.map f).getD i d = f (l.getD i d') := by
  rw [List.getD_eq_getElem?_getD, List.getElem?_map, List.getElem?_eq_getElem h,
    List.getD_eq_getElem?_getD, List.getElem?_eq_getElem h]
  rfl

/-- Success characterization of the `_get_vals_uids` loop: when every
requested UID is live, it returns the gathered values and writes
`new_uid_map[key[i]] = i` for each key, left to right. -/
theorem FusedArray.getValsUids_ok [Inhabited α] (vals : List α) (m : List Nat)
    (ks : List Nat) (i : Nat) (out : List α) (acc : List Nat)
    (hall : ∀ w ∈ ks, LiveAt m vals.length w) :
    getValsUids vals m ks i out acc =
      .ok (out ++ ks.map (fun k => vals.getD (m.getD k 0) default),
           setMany acc (ks.zip (List.range' i ks.length))) := by
  induction ks generalizing i out acc with
  | nil => simp [getValsUids]
  | cons k ks ih =>
    obtain ⟨hk, hnan, hlt⟩ := hall k (List.mem_cons_self _ _)
    rw [getValsUids, if_pos hk, if_neg hnan, if_pos hlt,
      ih _ _ _ (fun w hw => hall w (List.mem_cons_of_mem _ hw))]
    simp [List.range'_succ]

/-- Writing `acc[ks[j]] = i + j` left to right: the final value at a
member `u` of `ks` is `i + j` for the last occurrence `j` of `u`. -/
theorem getD_setMany_zip_range' (acc : List Nat) (ks : List Nat) (i u d : Nat)
    (hu : u ∈ ks) (hlen : u < acc.length) :
    ∃ j, j < ks.length ∧ ks.getD j 0 = u ∧
      (setMany acc (ks.zip (List.range' i ks.length))).getD u d = i + j := by
  induction ks generalizing acc i with
  | nil => cases hu
  | cons k ks ih =>
    rw [List.length_cons, List.range'_succ, List.zip_cons_cons, setMany_cons]
    by_cases hmem : u ∈ ks
    · obtain ⟨j, hj, hjk, hres⟩ := ih (acc.set k i) (i + 1) hmem (by simpa using hlen)
      exact ⟨j + 1, by omega, by simpa using hjk, by rw [hres]; omega⟩
    · have hu' : u = k := by
        rcases List.mem_cons.mp hu with h | h
        · exact h
        · exact absurd h hmem
      subst hu'
      refine ⟨0, by omega, rfl, ?_⟩
      rw [getD_setMany_not_mem]
      · rw [List.getD_eq_getElem?_getD, List.getElem?_set_self hlen]
        simp
      · rw [List.map_fst_zip _ _ (by simp)]
        exact hmem

/-- Extract the FusedArray from a successful array-valued get. -/
def getArr [Inhabited α] : Except SErr (GetRes α) → FusedArray α
  | .ok (.arr fa) => fa
  | _ => default

/-- Claim C9 (chained identifier indexing), proved of
`FusedArray.getitem`: indexing a column by an array of live identifiers
succeeds and returns a new identifier-indexed array that preserves
identifier addressing — indexing the result by any identifier of the
request gives the same answer as indexing the original column, so
identifier-array filters can be chained.  (`us.length < INT_NAN` rules out
a request so large that a loop counter would collide with the sentinel;
with 64-bit indices this always holds.) -/
theorem C9_chained_indexing [Inhabited α] (fa : FusedArray α) (us : List Nat)
    (hall : ∀ w ∈ us, LiveAt fa.uid_map fa.values.length w)
    (hlen : us.length < INT_NAN) :
    (fa.getitem (.uids us)).isOk = true ∧
    ∀ u ∈ us, (getArr (fa.getitem (.uids us))).getitem (.uid u) = fa.getitem (.uid u) := by
  have hok := FusedArray.getValsUids_ok fa.values fa.uid_map us 0 []
    (List.replicate fa.uid_map.length INT_NAN) hall
  have hgi : fa.getitem (.uids us) =
      .ok (.arr ⟨us.map (fun k => fa.values.getD (fa.uid_map.getD k 0) default), us,
        setMany (List.replicate fa.uid_map.length INT_NAN)
          (us.zip (List.range' 0 us.length))⟩) := by
    rw [FusedArray.getitem, hok]
    rfl
  constructor
  · rw [hgi]
    rfl
  · intro u hu
    obtain ⟨hk, hnan, hlt⟩ := hall u hu
    have hrepl : u < (List.replicate fa.uid_map.length INT_NAN : List Nat).length := by
      simpa using hk
    obtain ⟨j, hj, hjk, hres⟩ :=
      getD_setMany_zip_range' (List.replicate fa.uid_map.length INT_NAN) us 0 u 0 hu hrepl
    rw [hgi]
    show FusedArray.getitem ⟨_, us, _⟩ (.uid u) = _
    rw [FusedArray.getitem]
    dsimp only
    rw [if_pos (show u < (setMany (List.replicate fa.uid_map.length INT_NAN)
        (us.zip (List.range' 0 us.length))).length by rw [setMany_length]; simpa using hk)]
    rw [hres]
    rw [if_neg (by omega), if_pos (by simpa using hj)]
    rw [Nat.zero_add, getD_map_lt _ _ _ _ 0 hj, hjk]
    rw [FusedArray.getitem, if_pos hk, if_neg hnan, if_pos hlt]

/-- Witness for C9: filtering the column by `[2, 0]` and then getting
identifier 2 agrees with getting identifier 2 directly. -/
theorem C9_chained_indexing_witness :
    ((FusedArray.getitem (α := Nat) ⟨[10, 20, 30], [0, 1, 2], [0, 1, 2]⟩
        (.uids [2, 0])).isOk = true) ∧
    (getArr (FusedArray.getitem (α := Nat) ⟨[10, 20, 30], [0, 1, 2], [0, 1, 2]⟩
        (.uids [2, 0]))).getitem (.uid 2)
      = FusedArray.getitem ⟨[10, 20, 30], [0, 1, 2], [0, 1, 2]⟩ (.uid 2) := by
  have h := C9_chained_indexing (α := Nat) ⟨[10, 20, 30], [0, 1, 2], [0, 1, 2]⟩ [2, 0]
    (by decide) (by decide)
  exact ⟨h.1, h.2 2 (by decide)⟩

/-- The result of applying the first `j` writes of a bulk
`_set_vals_uids_multiple` call: `vals[uid_map[ks[i]]] = vs[i]` for
`i < j`, in key order. -/
def firstWrites (uid_map : List Nat) : List α → List Nat → List α → Nat → List α
  | vals, _, _, 0 => vals
  | vals, k :: ks, v :: vs, j + 1 =>
      firstWrites uid_map (vals.set (uid_map.getD k 0) v) ks vs j
  | vals, _, _, _ => vals

@[simp] theorem firstWrites_zero (um : List Nat) (vals : List α) (ks : List Nat)
    (vs : List α) : firstWrites um vals ks vs 0 = vals := by
  cases ks <;> cases vs <;> rfl

theorem firstWrites_cons (um : List Nat) (vals : List α) (k : Nat) (ks : List Nat)
    (v : α) (vs : List α) (j : Nat) :
    firstWrites um vals (k :: ks) (v :: vs) (j + 1)
      = firstWrites um (vals.set (um.getD k 0) v) ks vs j := rfl

/-- `_set_vals_uids_multiple` when a prefix of the keys is live and the
`j`-th key is dead: the loop performs the first `j` writes, then raises,
leaving those writes in place. -/
theorem FusedArray.setValsUidsMultiple_partial (m : List Nat) (ks : List Nat)
    (vs vals : List α) (j : Nat)
    (hj : j < ks.length) (hlen : ks.length ≤ vs.length)
    (hlive : ∀ i < j, LiveAt m vals.length (ks.getD i 0))
    (hdead : Dead m (ks.getD j 0)) :
    setValsUidsMultiple m ks vs vals =
      (firstWrites m vals ks vs j, some .identifierNotFound) := by
  induction j generalizing ks vs vals with
  | zero =>
    cases ks with
    | nil => simp at hj
    | cons k ks =>
      cases vs with
      | nil => simp at hlen
      | cons v vs =>
        rw [firstWrites]
        rcases hdead with hd | hd
        · rw [setValsUidsMultiple, if_neg (by simp only [List.getD_cons_zero] at hd; omega)]
        · simp only [List.getD_cons_zero] at hd
          by_cases hk : k < m.length
          · rw [setValsUidsMultiple, if_pos hk, if_pos hd]
          · rw [setValsUidsMultiple, if_neg hk]
  | succ j ih =>
    cases ks with
    | nil => simp at hj
    | cons k ks =>
      cases vs with
      | nil => simp at hlen
      | cons v vs =>
        obtain ⟨hk, hnan, hlt⟩ := by simpa using hlive 0 (by omega)
        rw [setValsUidsMultiple, if_pos hk, if_neg hnan, if_pos hlt, firstWrites]
        refine ih ks vs _ (by simpa using hj) (by simpa using hlen) ?_ (by simpa using hdead)
        intro i hi
        have := hlive (i + 1) (by omega)
        simpa [List.length_set] using this

/-- `_set_vals_uids_multiple` when every key is live: if the value array
covers the keys, all writes are applied and no error is raised (extra
values are ignored); if it is shorter, the covered writes are applied and
the out-of-range read of the value array raises. -/
theorem FusedArray.setValsUidsMultiple_live (m : List Nat) (ks : List Nat)
    (vs vals : List α)
    (hlive : ∀ u ∈ ks, LiveAt m vals.length u) :
    setValsUidsMultiple m ks vs vals =
      if ks.length ≤ vs.length
      then (firstWrites m vals ks vs ks.length, none)
      else (firstWrites m vals ks vs vs.length, some .indexOOB) := by
  induction ks generalizing vs vals with
  | nil => simp [setValsUidsMultiple, firstWrites]
  | cons k ks ih =>
    obtain ⟨hk, hnan, hlt⟩ := hlive k (List.mem_cons_self _ _)
    cases vs with
    | nil =>
      rw [setValsUidsMultiple, if_pos hk, if_neg hnan, if_pos hlt]
      rw [if_neg (by simp)]
      rfl
    | cons v vs =>
      rw [setValsUidsMultiple, if_pos hk, if_neg hnan, if_pos hlt]
      show setValsUidsMultiple m ks vs (vals.set (m.getD k 0) v) = _
      rw [ih vs _ (fun u hu => by
        simpa [List.length_set] using hlive u (List.mem_cons_of_mem _ hu))]
      simp only [List.length_cons]
      by_cases hc : ks.length ≤ vs.length
      · rw [if_pos hc, if_pos (by omega), firstWrites_cons]
      · rw [if_neg hc, if_neg (by omega), firstWrites_cons]

/-- Claim C10 (non-atomic bulk set), proved of `FusedArray.setitem`: a set
with an identifier array and a matching value array applies the writes
element by element in key order; when the `j`-th identifier is the first
with no live position, the identifier-not-found error is raised after the
first `j` values have already been written — the column keeps those
writes rather than being restored. -/
theorem C10_bulk_set_not_atomic [Inhabited α] (fa : FusedArray α)
    (ks : List Nat) (vs : List α) (j : Nat)
    (hj : j < ks.length) (hlen : vs.length = ks.length)
    (hlive : ∀ i < j, LiveAt fa.uid_map fa.values.length (ks.getD i 0))
    (hdead : Dead fa.uid_map (ks.getD j 0)) :
    fa.setitem (.uids ks) (.arr vs) =
      ({ fa with values := firstWrites fa.uid_map fa.values ks vs j },
       some .identifierNotFound) := by
  rw [FusedArray.setitem,
    FusedArray.setValsUidsMultiple_partial fa.uid_map ks vs fa.values j hj (by omega)
      hlive hdead]

/-- Witness for C10: keys `[0, 1]` with identifier 1 removed — the write
for identifier 0 (value 7) persists even though the call fails. -/
theorem C10_bulk_set_not_atomic_witness :
    FusedArray.setitem (α := Nat) ⟨[10, 30], [0, 2], [0, INT_NAN, 1]⟩
        (.uids [0, 1]) (.arr [7, 8])
      = (⟨[7, 30], [0, 2], [0, INT_NAN, 1]⟩, some .identifierNotFound) := by
  have h := C10_bulk_set_not_atomic (α := Nat) ⟨[10, 30], [0, 2], [0, INT_NAN, 1]⟩
    [0, 1] [7, 8] 1 (by decide) (by decide)
    (by decide)
    (by decide)
  exact h.trans (by decide)

/-- Claim C7 as stated is refuted at a concrete input: getting with the
boolean mask `[True]` of length 1 against a column whose live count is 3
succeeds and returns data — no dimension-mismatch error is raised although
the mask's length differs from the live count. -/
theorem C7_counterexample :
    FusedArray.getitem (α := Nat) ⟨[10, 20, 30], [0, 1, 2], [0, 1, 2]⟩ (.mask [true])
      = .ok (.arr ⟨[10], [0], [0, INT_NAN, INT_NAN]⟩) := by
  decide

/-- Claim C7 (amended): the identifier-array set path performs no
dimension check — a value array shorter than the key raises an
out-of-range error (after the covered writes), while a longer one is
accepted with the extra values ignored; a boolean mask is applied
positionally without comparing its length to the live count, so a shorter
mask succeeds and selects only the positions it covers; only a mask-keyed
set whose value array (with at least 2 elements, i.e. not broadcastable)
has a length different from the number of `True` positions raises the
shape-mismatch error. -/
theorem C7_dimension_checks [Inhabited α] (fa : FusedArray α)
    (ks : List Nat) (vs : List α) (m : List Bool) (ws : List α)
    (hwf : fa.WF)
    (hlive : ∀ u ∈ ks, LiveAt fa.uid_map fa.values.length u)
    (hmask : m.length ≤ fa.values.length) :
    (vs.length < ks.length → (fa.setitem (.uids ks) (.arr vs)).2 = some .indexOOB) ∧
    (ks.length ≤ vs.length →
      fa.setitem (.uids ks) (.arr vs) =
        ({ fa with values := firstWrites fa.uid_map fa.values ks vs ks.length }, none)) ∧
    ((fa.getitem (.mask m)).isOk = true) ∧
    (2 ≤ ws.length → ws.length ≠ (truePos m).length →
      (fa.setitem (.mask m) (.arr ws)).2 = some .dimensionMismatch) := by
  obtain ⟨hlen, hcap⟩ := hwf
  refine ⟨?_, ?_, ?_, ?_⟩
  · intro hshort
    rw [FusedArray.setitem, FusedArray.setValsUidsMultiple_live fa.uid_map ks vs fa.values hlive,
      if_neg (by omega)]
  · intro hge
    rw [FusedArray.setitem, FusedArray.setValsUidsMultiple_live fa.uid_map ks vs fa.values hlive,
      if_pos hge]
  · have h1 : ∀ i ∈ truePos m, i < fa.uid.length := by
      intro i hi
      have := truePos_lt m i hi
      omega
    have h2 : ∀ w ∈ (truePos m).map (fun i => fa.uid.getD i 0), w < fa.uid_map.length := by
      intro w hw
      obtain ⟨i, hi, rfl⟩ := List.mem_map.mp hw
      refine hcap _ ?_
      have hlt := h1 i hi
      rw [List.getD_eq_getElem?_getD, List.getElem?_eq_getElem hlt]
      exact List.getElem_mem hlt
    have h3 : ∀ i ∈ truePos m, i < fa.values.length := by
      intro i hi
      have := truePos_lt m i hi
      omega
    rw [FusedArray.getitem]
    rw [if_pos h1, if_pos h2, if_pos h3]
    rfl
  · intro hws hne
    rw [FusedArray.setitem]
    rw [if_neg (show ¬ ws.length = 1 by omega), if_neg hne]

/-- Witness for the amended C7 at concrete inputs: a 2-element value array
for a 1-element key is rejected only when too short, a longer value array
is accepted, a short mask is accepted, and a mask-set with a 2-element
value against one `True` position raises the shape error. -/
theorem C7_dimension_checks_witness :
    ((FusedArray.setitem (α := Nat) ⟨[10, 20, 30], [0, 1, 2], [0, 1, 2]⟩
        (.uids [0, 1]) (.arr [7])).2 = some .indexOOB) ∧
    (FusedArray.setitem (α := Nat) ⟨[10, 20, 30], [0, 1, 2], [0, 1, 2]⟩
        (.uids [0, 1]) (.arr [7, 8, 9]) =
      (⟨[7, 8, 30], [0, 1, 2], [0, 1, 2]⟩, none)) ∧
    ((FusedArray.getitem (α := Nat) ⟨[10, 20, 30], [0, 1, 2], [0, 1, 2]⟩
        (.mask [true])).isOk = true) ∧
    ((FusedArray.setitem (α := Nat) ⟨[10, 20, 30], [0, 1, 2], [0, 1, 2]⟩
        (.mask [true]) (.arr [7, 8])).2 = some .dimensionMismatch) := by
  have h := C7_dimension_checks (α := Nat) ⟨[10, 20, 30], [0, 1, 2], [0, 1, 2]⟩
    [0, 1] [7] [true] [7, 8] (by constructor <;> decide)
    (by decide) (by decide)
  have h2 := C7_dimension_checks (α := Nat) ⟨[10, 20, 30], [0, 1, 2], [0, 1, 2]⟩
    [0, 1] [7, 8, 9] [true] [7, 8] (by constructor <;> decide)
    (by decide) (by decide)
  refine ⟨h.1 (by decide), (h2.2.1 (by decide)).trans (by decide), h.2.2.1,
    h.2.2.2 (by decide) (by decide)⟩

namespace DynamicView

@[simp] theorem setPos_n (dv : DynamicView α) (inds : List Nat) (vals : List α) :
    (dv.setPos inds vals).n = dv.n := rfl

@[simp] theorem setPos_fill (dv : DynamicView α) (inds : List Nat) (vals : List α) :
    (dv.setPos inds vals).fill_value = dv.fill_value := rfl

theorem setPos_data_length (dv : DynamicView α) (inds : List Nat) (vals : List α) :
    (dv.setPos inds vals).data.length = dv.data.length := setMany_length _ _

theorem setPos_WF (dv : DynamicView α) (inds : List Nat) (vals : List α)
    (h : dv.WF) : (dv.setPos inds vals).WF := by
  unfold WF at h ⊢
  rw [setPos_n, setPos_data_length]
  exact h

theorem view_getD_eq (dv : DynamicView α) (i : Nat) (d : α) (h : i < dv.n) :
    dv.view.getD i d = dv.data.getD i d := by
  unfold view
  rw [List.getD_eq_getElem?_getD, List.getElem?_take_of_lt h, List.getD_eq_getElem?_getD]

@[simp] theorem fillView_n (dv : DynamicView α) (c : α) : (dv.fillView c).n = dv.n := rfl

@[simp] theorem fillView_fill (dv : DynamicView α) (c : α) :
    (dv.fillView c).fill_value = dv.fill_value := rfl

theorem fillView_data_length (dv : DynamicView α) (c : α) (h : dv.WF) :
    (dv.fillView c).data.length = dv.data.length := by
  unfold WF at h
  simp [fillView]
  omega

theorem fillView_WF (dv : DynamicView α) (c : α) (h : dv.WF) : (dv.fillView c).WF := by
  unfold WF
  rw [fillView_n, fillView_data_length _ _ h]
  exact h

theorem fillView_data_getD_lt (dv : DynamicView α) (c : α) (u : Nat) (d : α)
    (h : u < dv.n) : (dv.fillView c).data.getD u d = c := by
  unfold fillView
  rw [List.getD_eq_getElem?_getD, List.getElem?_append_left (by simpa using h),
    List.getElem?_replicate]
  simp [h]

theorem eq_of_fields (a b : DynamicView α) (h1 : a.fill_value = b.fill_value)
    (h2 : a.n = b.n) (h3 : a.data = b.data) : a = b := by
  cases a
  cases b
  simp_all

theorem fillView_data_drop (dv : DynamicView α) (c : α) :
    (dv.fillView c).data.drop dv.n = dv.data.drop dv.n := by
  show ((List.replicate dv.n c ++ dv.data.drop dv.n).drop dv.n) = _
  rw [List.drop_left' (by simp)]

@[simp] theorem trim_n (dv : DynamicView α) (inds : List Nat) :
    (dv.trim inds).n = inds.length := rfl

@[simp] theorem trim_fill (dv : DynamicView α) (inds : List Nat) :
    (dv.trim inds).fill_value = dv.fill_value := rfl

theorem trim_view (dv : DynamicView α) (inds : List Nat) :
    (dv.trim inds).view = inds.map (fun i => dv.data.getD i dv.fill_value) := by
  show ((inds.map (fun i => dv.data.getD i dv.fill_value)
      ++ List.replicate (dv.n - inds.length) dv.fill_value
      ++ dv.data.drop (max dv.n inds.length)).take inds.length) = _
  rw [List.append_assoc, List.take_left' (by simp)]

theorem trim_data_length (dv : DynamicView α) (inds : List Nat)
    (hm : inds.length ≤ dv.n) (hwf : dv.WF) :
    (dv.trim inds).data.length = dv.data.length := by
  unfold WF at hwf
  unfold trim
  simp only [List.length_append, List.length_map, List.length_replicate, List.length_drop]
  omega

theorem trim_WF (dv : DynamicView α) (inds : List Nat)
    (hm : inds.length ≤ dv.n) (hwf : dv.WF) : (dv.trim inds).WF := by
  unfold WF at hwf ⊢
  rw [trim_n, trim_data_length _ _ hm hwf]
  omega

/-- Trimming to exactly the current positions, in order, is the identity. -/
theorem trim_range_self (dv : DynamicView α) (hwf : dv.WF) :
    dv.trim (List.range dv.n) = dv := by
  unfold WF at hwf
  refine eq_of_fields _ _ rfl (by simp) ?_
  show (List.range dv.n).map (fun i => dv.data.getD i dv.fill_value)
        ++ List.replicate (dv.n - (List.range dv.n).length) dv.fill_value
        ++ dv.data.drop (max dv.n (List.range dv.n).length) = dv.data
  rw [List.length_range, Nat.sub_self, List.replicate_zero, Nat.max_self,
    map_getD_range _ _ _ hwf, List.append_nil, List.take_append_drop]

end DynamicView

/-! ### State columns and the population coordinator

`StateD` embeds `class State` of src/starsim/states.py: a `DynamicView`
buffer plus the fill policy producing values for newly added agents.
`People` embeds `class DynamicPeople` of src/removing_people.py, the
population coordinator holding the canonical identity map (`_uid_map`, a
dense positionally-indexed array `uid -> position` with `INT_NAN` for
absent uids), the live identifier list (`uids`), and the registered
columns. -/

/-- The fill policy of a `State` (its `fill_value`): either a scalar
(broadcast over the new slots) or a per-UID value producer (modelling a
callable / `ScipyDistribution` sampler, which `State._new_vals` evaluates
on the new agents to one value per new UID). -/
inductive FillPolicy (α : Type) where
  | scalar (c : α)
  | perUid (f : Nat → α)

instance [Inhabited α] : Inhabited (FillPolicy α) := ⟨.scalar default⟩

/-- `State._new_vals(uids)` as a list of one value per new UID. -/
def newVals (fp : FillPolicy α) (uids : List Nat) : List α :=
  match fp with
  | .scalar c => List.replicate uids.length c
  | .perUid f => uids.map f

/-- The value a fill policy produces for a single new UID. -/
def fillValAt (fp : FillPolicy α) (u : Nat) : α :=
  match fp with
  | .scalar c => c
  | .perUid f => f u

/-- A registered column: its buffer and its fill policy (`State`). -/
structure StateD (α : Type) where
  dv : DynamicView α
  fill : FillPolicy α

instance [Inhabited α] : Inhabited (StateD α) :=
  ⟨⟨⟨default, 0, []⟩, default⟩⟩

namespace StateD

/-- `State.initialize` (the part run once the UID arrays are known):
`self._data.grow(len(self.uid)); self._data[:len(self.uid)] =
self._new_vals(self.uid)`, starting from the empty `DynamicView` buffer
(`np.empty(0)`).  `fv` is the buffer's own fill value (`dtype()`). -/
def register (fp : FillPolicy α) (fv : α) (uids : List Nat) : StateD α :=
  let dv0 : DynamicView α := { fill_value := fv, n := 0, data := [] }
  let dv1 := dv0.grow uids.length
  { dv := dv1.setPos (List.range uids.length) (newVals fp uids), fill := fp }

/-- `State.grow(uids)`: `self._data.grow(n); self._data[-n:] =
self._new_vals(uids)` with `n = len(uids)`.

The `[-n:]` slice is the last `n` view positions when `n >= 1`, but for
`n = 0` Python's `-0` is `0`, so the slice covers the *whole* view: a
scalar fill value is then broadcast over every live position, and a
per-UID fill produces an empty array whose assignment to a non-empty view
raises a shape error (`none` here). -/
def grow (s : StateD α) (uids : List Nat) : Option (StateD α) :=
  let n := uids.length
  let dv1 := s.dv.grow n
  if n = 0 then
    match s.fill with
    | .scalar c => some { s with dv := dv1.fillView c }
    | .perUid _ => if dv1.n = 0 then some { s with dv := dv1 } else none
  else
    some { s with dv := dv1.setPos (List.range' (dv1.n - n) n) (newVals s.fill uids) }

/-- `State._trim(inds)`: delegate to the buffer's `_trim`. -/
def trimS (s : StateD α) (inds : List Nat) : StateD α :=
  { s with dv := s.dv.trim inds }

end StateD

/-- The coordinator (`DynamicPeople`): the dense identity map `_uid_map`
(position `u` holds the live position of UID `u`, or `INT_NAN`), the live
UID list `uids`, and the registered columns. -/
structure People (α : Type) where
  uid_map : DynamicView Nat
  uids : DynamicView Nat
  states : List (StateD α)

namespace People

/-- `len(self)` — the live-agent count (`len(self.uids)`). -/
def count (p : People α) : Nat := p.uids.n

/-- `len(self._uid_map)` — the number of identifiers ever issued. -/
def issued (p : People α) : Nat := p.uid_map.n

/-- `IdentityMap.lookup`: `self._uid_map[u]`, with the sentinel for an
identifier beyond the map's capacity. -/
def lookup (p : People α) (u : Nat) : Nat := p.uid_map.view.getD u INT_NAN

/-- The identifier currently stored at live position `j`. -/
def uidAt (p : People α) (j : Nat) : Nat := p.uids.view.getD j 0

/-- The fresh identifiers `np.arange(start_uid, start_uid + n)` that
`grow(n)` issues. -/
def newUids (p : People α) (k : Nat) : List Nat := List.range' p.issued k

/-- `DynamicPeople.initialize(n)`: identifiers `0..n-1`, identity map
`uid -> uid`, and every registered column backfilled over those agents.
(`self._uid_map.initialize(n); self._uid_map[:] = np.arange(n)` yields the
buffer `range n`, likewise for `uids`.)  Each spec entry is a column's
fill policy together with its buffer fill value. -/
def initial (specs : List (FillPolicy α × α)) (n : Nat) : People α :=
  { uid_map := { fill_value := 0, n := n, data := List.range n }
    uids := { fill_value := 0, n := n, data := List.range n }
    states := specs.map (fun sp => StateD.register sp.1 sp.2 (List.range n)) }

/-- Grow every registered column (`for state in self._dynamic_states:
state.grow(...)`), failing if any single grow fails. -/
def growStates (uids : List Nat) : List (StateD α) → Option (List (StateD α))
  | [] => some []
  | s :: ss =>
    match s.grow uids, growStates uids ss with
    | some s1, some ss1 => some (s1 :: ss1)
    | _, _ => none

/-- `DynamicPeople.grow(n)`:
`start_uid = len(self._uid_map); start_idx = len(self.uids)`;
extend the identity map (`self._uid_map.grow(n);
self._uid_map[new_uids] = new_inds` — positional writes, since the map is
dense), register the new identifiers
(`self.uids.grow(n); self.uids[new_uids] = new_uids` — a UID-keyed write
that goes through the just-updated identity map), then grow every column
(starsim `State.grow(uids)`). -/
def grow (p : People α) (k : Nat) : Option (People α) :=
  let new_uids := p.newUids k
  let new_inds := List.range' p.count k
  let um := (p.uid_map.grow k).setPos new_uids new_inds
  let uv := (p.uids.grow k).setPos (new_uids.map (fun u => um.view.getD u 0)) new_uids
  match growStates new_uids p.states with
  | some sts => some { uid_map := um, uids := uv, states := sts }
  | none => none

/-- `p.grow k` with the untouched population as the (never used in the
claims' scope) fallback, for stating results about the grown population. -/
def growD (p : People α) (k : Nat) : People α := (p.grow k).getD p

/-- `remaining_uids = self.uids.values[~np.in1d(self.uids, uids)]`. -/
def survivors (p : People α) (rm : List Nat) : List Nat :=
  p.uids.view.filter (fun u => !(rm.contains u))

/-- `DynamicPeople.remove(uids)`: compute the surviving identifiers and
their current positions (`keep_inds = self._uid_map[remaining_uids]`),
compact the UID list and every column with `_trim(keep_inds)`, then
rebuild the identity map (`self._uid_map[:] = INT_NAN;
self._uid_map[remaining_uids] = np.arange(len(remaining_uids))`). -/
def remove (p : People α) (rm : List Nat) : People α :=
  let remaining := p.survivors rm
  let keep_inds := remaining.map (fun u => p.uid_map.view.getD u 0)
  { uid_map := (p.uid_map.fillView INT_NAN).setPos remaining (List.range remaining.length)
    uids := p.uids.trim keep_inds
    states := p.states.map (fun s => s.trimS keep_inds) }

/-- The FusedArray through which a registered column is read: its live
values, the shared UID list, and the shared identity map. -/
def colFused (p : People α) (i : Nat) [Inhabited α] : FusedArray α :=
  ⟨(p.states.getD i default).dv.view, p.uids.view, p.uid_map.view⟩

/-- Get column `i` at identifier `u` (`state[u]` via
`FusedArray.__getitem__`). -/
def colGet [Inhabited α] (p : People α) (i u : Nat) : Except SErr (GetRes α) :=
  (p.colFused i).getitem (.uid u)

/-- The value stored at position `j` of column `i`'s live view. -/
def colVal [Inhabited α] (p : People α) (i j : Nat) : α :=
  (p.states.getD i default).dv.view.getD j default

/-- Set column `i` through its FusedArray view (`state[key] = value`).
The FusedArray's `values` is a view of the buffer prefix, so writes land
in the buffer.  Returns the updated population and the error, if any. -/
def setCol [Inhabited α] (p : People α) (i : Nat) (k : Key) (v : Val α) :
    People α × Option SErr :=
  match p.states.get? i with
  | none => (p, none)
  | some s =>
    let r := FusedArray.setitem ⟨s.dv.view, p.uids.view, p.uid_map.view⟩ k v
    let s1 : StateD α := { s with dv := { s.dv with data := r.1.values ++ s.dv.data.drop s.dv.n } }
    ({ p with states := p.states.set i s1 }, r.2)

/-- The coordinator operations a simulation performs between reads. -/
inductive Op where
  | grow (n : Nat)
  | remove (us : List Nat)

/-- Apply a sequence of coordinator operations. -/
def run (p : People α) : List Op → Option (People α)
  | [] => some p
  | .grow n :: ops =>
    match p.grow n with
    | some q => q.run ops
    | none => none
  | .remove us :: ops => (p.remove us).run ops

/-- Total number of identifiers a sequence of operations issues. -/
def growSum : List Op → Nat
  | [] => 0
  | .grow n :: ops => n + growSum ops
  | .remove _ :: ops => growSum ops

/-- The coordinator invariant: well-formed buffers; every column's length
equals the live count; the live count never exceeds the number of issued
identifiers, which stays below the sentinel; the identity map and the
live UID list are mutually inverse. -/
def Inv (p : People α) : Prop :=
  p.uid_map.WF ∧ p.uids.WF ∧ p.count ≤ p.issued ∧ p.issued < INT_NAN ∧
  (∀ s ∈ p.states, s.dv.n = p.count ∧ s.dv.WF) ∧
  (∀ j, j < p.count → p.uidAt j < p.issued ∧ p.lookup (p.uidAt j) = j) ∧
  (∀ u, u < p.issued → p.lookup u ≠ INT_NAN →
    p.lookup u < p.count ∧ p.uidAt (p.lookup u) = u)

end People

instance (dv : DynamicView α) : Decidable dv.WF := by
  unfold DynamicView.WF
  infer_instance

instance (p : People α) : Decidable p.Inv := by
  unfold People.Inv
  infer_instance


theorem getD_eq_getElem (l : List α) (i : Nat) (d : α) (h : i < l.length) :
    l.getD i d = l[i] := by
  rw [List.getD_eq_getElem?_getD, List.getElem?_eq_getElem h]
  rfl

theorem getD_range' (a k i d : Nat) (h : i < k) :
    (List.range' a k).getD i d = a + i := by
  rw [getD_eq_getElem _ _ _ (by simpa using h)]
  simp

theorem getD_range (n i d : Nat) (h : i < n) :
    (List.range n).getD i d = i := by
  rw [getD_eq_getElem _ _ _ (by simpa using h)]
  simp

theorem mem_iff_getD (l : List Nat) (u : Nat) :
    u ∈ l ↔ ∃ j, j < l.length ∧ l.getD j 0 = u := by
  rw [List.mem_iff_getElem]
  constructor
  · rintro ⟨i, h, rfl⟩
    exact ⟨i, h, getD_eq_getElem _ _ _ h⟩
  · rintro ⟨j, hj, rfl⟩
    exact ⟨j, hj, (getD_eq_getElem _ _ _ hj).symm⟩

theorem getD_setMany_zip_not_mem (l : List α) (inds : List Nat) (vals : List α)
    (i : Nat) (d : α) (hlen : inds.length ≤ vals.length) (h : i ∉ inds) :
    (setMany l (inds.zip vals)).getD i d = l.getD i d := by
  apply getD_setMany_not_mem
  rw [List.map_fst_zip _ _ hlen]
  exact h

theorem getD_setMany_range'_zip (l : List α) (a k j : Nat) (vals : List α) (d : α)
    (hk : vals.length = k) (hj : j < k) (hlen : a + k ≤ l.length) :
    (setMany l ((List.range' a k).zip vals)).getD (a + j) d = vals.getD j d := by
  induction k generalizing a l vals j with
  | zero => omega
  | succ k ih =>
    cases vals with
    | nil => simp at hk
    | cons v vs =>
      rw [List.range'_succ, List.zip_cons_cons, setMany_cons]
      cases j with
      | zero =>
        rw [getD_setMany_zip_not_mem _ _ _ _ _ (by simp at hk ⊢; omega)
          (by rw [List.mem_range'_1]; omega)]
        rw [Nat.add_zero, List.getD_eq_getElem?_getD, List.getElem?_set_self (by omega)]
        simp
      | succ j =>
        rw [show a + (j + 1) = (a + 1) + j by omega,
          ih (l.set a v) (a + 1) j vs (by simpa using hk) (by omega) (by simp; omega)]
        simp

theorem getD_setMany_range'_zip_out (l : List α) (a k : Nat) (vals : List α)
    (i : Nat) (d : α) (hk : vals.length = k) (h : i < a ∨ a + k ≤ i) :
    (setMany l ((List.range' a k).zip vals)).getD i d = l.getD i d := by
  apply getD_setMany_zip_not_mem _ _ _ _ _ (by simp [hk])
  rw [List.mem_range'_1]
  omega

namespace DynamicView

@[simp] theorem setPos_data (dv : DynamicView α) (inds : List Nat) (vals : List α) :
    (dv.setPos inds vals).data = setMany dv.data (inds.zip vals) := rfl

theorem setPos_view_getD_at (dv : DynamicView α) (a k j : Nat) (vals : List α) (d : α)
    (hk : vals.length = k) (hj : j < k) (hin : a + k ≤ dv.n) (hwf : dv.WF) :
    (dv.setPos (List.range' a k) vals).view.getD (a + j) d = vals.getD j d := by
  rw [view_getD_eq _ _ _ (by rw [setPos_n]; omega), setPos_data,
    getD_setMany_range'_zip _ _ _ _ _ _ hk hj (by unfold WF at hwf; omega)]

theorem setPos_view_getD_out (dv : DynamicView α) (a k : Nat) (vals : List α)
    (i : Nat) (d : α) (hk : vals.length = k) (hi : i < dv.n) (h : i < a ∨ a + k ≤ i) :
    (dv.setPos (List.range' a k) vals).view.getD i d = dv.view.getD i d := by
  rw [view_getD_eq _ _ _ (by rw [setPos_n]; omega), setPos_data,
    getD_setMany_range'_zip_out _ _ _ _ _ _ hk h, view_getD_eq _ _ _ hi]

theorem setPos_view_getD_not_mem (dv : DynamicView α) (inds : List Nat) (vals : List α)
    (i : Nat) (d : α) (hlen : inds.length ≤ vals.length) (hi : i < dv.n) (h : i ∉ inds) :
    (dv.setPos inds vals).view.getD i d = dv.view.getD i d := by
  rw [view_getD_eq _ _ _ (by rw [setPos_n]; omega), setPos_data,
    getD_setMany_zip_not_mem _ _ _ _ _ hlen h, view_getD_eq _ _ _ hi]

theorem setPos_view_getD_mem_nodup (dv : DynamicView α) (inds : List Nat) (vals : List α)
    (j : Nat) (d : α) (hnd : inds.Nodup) (hj : j < inds.length)
    (hlen : vals.length = inds.length) (hin : ∀ x ∈ inds, x < dv.n) (hwf : dv.WF) :
    (dv.setPos inds vals).view.getD (inds.getD j 0) d = vals.getD j d := by
  have hmem : inds.getD j 0 ∈ inds := by
    rw [getD_eq_getElem _ _ _ hj]
    exact List.getElem_mem hj
  have hidx : inds.getD j 0 < dv.data.length := by
    have h1 := hin _ hmem
    unfold WF at hwf
    omega
  rw [view_getD_eq _ _ _ (by rw [setPos_n]; exact hin _ hmem), setPos_data]
  refine getD_setMany_mem_nodup _ _ _ _ _ (by rw [List.map_fst_zip _ _ (by omega)]; exact hnd)
    ?_ hidx
  rw [List.mem_iff_getElem]
  refine ⟨j, by simp; omega, ?_⟩
  rw [List.getElem_zip, getD_eq_getElem inds _ _ hj,
    getD_eq_getElem vals _ _ (show j < vals.length by omega)]

end DynamicView

namespace StateD

/-- `State.grow` on a non-empty batch of new UIDs always succeeds and
appends the fill values at the new positions. -/
theorem grow_pos (s : StateD α) (uids : List Nat) (h : uids.length ≠ 0) :
    s.grow uids = some ⟨(s.dv.grow uids.length).setPos
      (List.range' s.dv.n uids.length) (newVals s.fill uids), s.fill⟩ := by
  unfold grow
  rw [if_neg h]
  simp

theorem grow_fields (s s1 : StateD α) (uids : List Nat) (h : s.grow uids = some s1) :
    s1.fill = s.fill ∧ s1.dv.n = s.dv.n + uids.length ∧
    s1.dv.fill_value = s.dv.fill_value ∧ (s.dv.WF → s1.dv.WF) := by
  unfold grow at h
  by_cases hn : uids.length = 0
  · rw [if_pos hn] at h
    cases hf : s.fill with
    | scalar c =>
      rw [hf] at h
      injection h with h
      subst h
      exact ⟨rfl, by simp [hn], rfl,
        fun hwf => DynamicView.fillView_WF _ _ (DynamicView.grow_WF _ _ hwf)⟩
    | perUid f =>
      rw [hf] at h
      by_cases hz : (s.dv.grow 0).n = 0
      · rw [hn] at h
        rw [if_pos hz] at h
        injection h with h
        subst h
        exact ⟨rfl, by simp [hn], rfl, fun hwf => DynamicView.grow_WF _ _ hwf⟩
      · rw [hn] at h
        rw [if_neg hz] at h
        cases h
  · rw [if_neg hn] at h
    injection h with h
    subst h
    exact ⟨rfl, by simp, rfl,
      fun hwf => DynamicView.setPos_WF _ _ _ (DynamicView.grow_WF _ _ hwf)⟩

theorem newVals_length (fp : FillPolicy α) (uids : List Nat) :
    (newVals fp uids).length = uids.length := by
  cases fp <;> simp [newVals]

theorem newVals_getD (fp : FillPolicy α) (uids : List Nat) (j : Nat) (d : α)
    (hj : j < uids.length) :
    (newVals fp uids).getD j d = fillValAt fp (uids.getD j 0) := by
  cases fp with
  | scalar c =>
    show (List.replicate uids.length c).getD j d = c
    rw [List.getD_eq_getElem?_getD, List.getElem?_replicate, if_pos hj]
    rfl
  | perUid f =>
    show (uids.map f).getD j d = f (uids.getD j 0)
    exact getD_map_lt f uids j d 0 hj

end StateD

namespace People

theorem growStates_length (uids : List Nat) (ss ss' : List (StateD α))
    (h : growStates uids ss = some ss') : ss'.length = ss.length := by
  induction ss generalizing ss' with
  | nil =>
    cases h
    rfl
  | cons s ss ih =>
    unfold growStates at h
    cases hg : s.grow uids with
    | none => rw [hg] at h; cases h
    | some s1 =>
      rw [hg] at h
      cases hr : growStates uids ss with
      | none => rw [hr] at h; cases h
      | some ss1 =>
        rw [hr] at h
        injection h with h
        subst h
        simp [ih _ hr]

theorem growStates_mem (uids : List Nat) (ss ss' : List (StateD α))
    (h : growStates uids ss = some ss') :
    ∀ s' ∈ ss', ∃ s ∈ ss, s.grow uids = some s' := by
  induction ss generalizing ss' with
  | nil =>
    cases h
    intro s' hs'
    cases hs'
  | cons s ss ih =>
    unfold growStates at h
    cases hg : s.grow uids with
    | none => rw [hg] at h; cases h
    | some s1 =>
      rw [hg] at h
      cases hr : growStates uids ss with
      | none => rw [hr] at h; cases h
      | some ss1 =>
        rw [hr] at h
        injection h with h
        subst h
        intro s' hs'
        rcases List.mem_cons.mp hs' with rfl | hs'
        · exact ⟨s, List.mem_cons_self _ _, hg⟩
        · obtain ⟨s0, hs0, hgr⟩ := ih _ hr s' hs'
          exact ⟨s0, List.mem_cons_of_mem _ hs0, hgr⟩

theorem growStates_getD [Inhabited α] (uids : List Nat) (ss ss' : List (StateD α))
    (h : growStates uids ss = some ss') (i : Nat) (hi : i < ss.length) :
    (ss.getD i default).grow uids = some (ss'.getD i default) := by
  induction ss generalizing ss' i with
  | nil => simp at hi
  | cons s ss ih =>
    unfold growStates at h
    cases hg : s.grow uids with
    | none => rw [hg] at h; cases h
    | some s1 =>
      rw [hg] at h
      cases hr : growStates uids ss with
      | none => rw [hr] at h; cases h
      | some ss1 =>
        rw [hr] at h
        injection h with h
        subst h
        cases i with
        | zero => simpa using hg
        | succ i => simpa using ih _ hr i (by simpa using hi)

theorem growStates_pos (uids : List Nat) (h : uids.length ≠ 0) (ss : List (StateD α)) :
    (growStates uids ss).isSome = true := by
  induction ss with
  | nil => rfl
  | cons s ss ih =>
    unfold growStates
    rw [StateD.grow_pos _ _ h]
    cases hr : growStates uids ss with
    | none => rw [hr] at ih; cases ih
    | some ss1 => rfl

end People

theorem getD_mem (l : List α) (j : Nat) (d : α) (h : j < l.length) : l.getD j d ∈ l := by
  rw [getD_eq_getElem _ _ _ h]
  exact List.getElem_mem h

namespace People

theorem lookup_ge (p : People α) (hum : p.uid_map.WF) (u : Nat) (hu : p.issued ≤ u) :
    p.lookup u = INT_NAN := by
  unfold lookup
  rw [List.getD_eq_getElem?_getD, List.getElem?_eq_none]
  · rfl
  · rw [DynamicView.view_length _ hum]
    exact hu

/-- A live identifier (a member of the `uids` view) is below the issued
bound, and the identity map sends it to its live position. -/
theorem view_mem_spec (p : People α) (hInv : p.Inv) (u : Nat) (hu : u ∈ p.uids.view) :
    u < p.issued ∧ p.lookup u < p.count ∧ p.uidAt (p.lookup u) = u ∧
    p.lookup u ≠ INT_NAN := by
  obtain ⟨hum, huv, hcnt, hiss, hsts, hA6, hA7⟩ := hInv
  obtain ⟨j, hj, hju⟩ := (mem_iff_getD _ _).mp hu
  rw [DynamicView.view_length _ huv] at hj
  have hjc : j < p.count := hj
  have h6 := hA6 j hjc
  have hAt : p.uidAt j = u := hju
  rw [hAt] at h6
  refine ⟨h6.1, by rw [h6.2]; exact hjc, by rw [h6.2]; exact hAt, by rw [h6.2]; omega⟩

theorem uidsView_nodup (p : People α) (hInv : p.Inv) : p.uids.view.Nodup := by
  have hInv' := hInv
  obtain ⟨hum, huv, hcnt, hiss, hsts, hA6, hA7⟩ := hInv'
  rw [List.nodup_iff_injective_getElem]
  intro a b hab
  have hab' : p.uids.view[a.1] = p.uids.view[b.1] := hab
  have key : ∀ c : Fin p.uids.view.length, p.lookup (p.uids.view[c.1]) = c.1 := by
    intro c
    have hc : c.1 < p.count := by
      have h2 := c.2
      have hL := DynamicView.view_length p.uids huv
      have hcc : p.count = p.uids.n := rfl
      omega
    have h6 := (hA6 c.1 hc).2
    have he : p.uidAt c.1 = p.uids.view[c.1] := getD_eq_getElem _ _ _ c.2
    rw [he] at h6
    exact h6
  have hv : a.1 = b.1 := by rw [← key a, ← key b, hab']
  exact Fin.ext hv

theorem grow_eq (p : People α) (k : Nat) (p' : People α) (h : p.grow k = some p') :
    p'.uid_map = (p.uid_map.grow k).setPos (p.newUids k) (List.range' p.count k) ∧
    p'.uids = (p.uids.grow k).setPos ((p.newUids k).map
      (fun u => ((p.uid_map.grow k).setPos (p.newUids k)
        (List.range' p.count k)).view.getD u 0)) (p.newUids k) ∧
    growStates (p.newUids k) p.states = some p'.states := by
  simp only [grow] at h
  cases hg : growStates (p.newUids k) p.states with
  | none => rw [hg] at h; cases h
  | some sts =>
    rw [hg] at h
    injection h with h
    subst h
    exact ⟨rfl, rfl, rfl⟩

theorem grow_issued (p : People α) (k : Nat) (p' : People α) (h : p.grow k = some p') :
    p'.issued = p.issued + k := by
  obtain ⟨he1, _, _⟩ := grow_eq p k p' h
  show p'.uid_map.n = p.uid_map.n + k
  rw [he1]
  simp

theorem grow_count (p : People α) (k : Nat) (p' : People α) (h : p.grow k = some p') :
    p'.count = p.count + k := by
  obtain ⟨_, he2, _⟩ := grow_eq p k p' h
  show p'.uids.n = p.uids.n + k
  rw [he2]
  simp

theorem grow_lookup_old (p : People α) (k : Nat) (p' : People α)
    (hum : p.uid_map.WF) (h : p.grow k = some p') (u : Nat) (hu : u < p.issued) :
    p'.lookup u = p.lookup u := by
  obtain ⟨he1, _, _⟩ := grow_eq p k p' h
  unfold lookup
  rw [he1]
  simp only [newUids]
  rw [DynamicView.setPos_view_getD_out _ p.issued k _ _ _ (by simp)
    (by rw [DynamicView.grow_n]; unfold issued at hu; omega) (Or.inl hu),
    DynamicView.grow_view_getD _ _ _ _ hum hu]

theorem grow_lookup_new (p : People α) (k : Nat) (p' : People α)
    (hum : p.uid_map.WF) (h : p.grow k = some p') (i : Nat) (hi : i < k) :
    p'.lookup (p.issued + i) = p.count + i := by
  obtain ⟨he1, _, _⟩ := grow_eq p k p' h
  unfold lookup
  rw [he1]
  simp only [newUids]
  rw [DynamicView.setPos_view_getD_at _ p.issued k i _ _ (by simp) hi
    (by unfold issued; rw [DynamicView.grow_n]) (DynamicView.grow_WF _ _ hum)]
  exact getD_range' _ _ _ _ hi

theorem grow_mapped_eq (p : People α) (k : Nat) (hum : p.uid_map.WF) :
    (p.newUids k).map (fun u => ((p.uid_map.grow k).setPos (p.newUids k)
      (List.range' p.count k)).view.getD u 0) = List.range' p.count k := by
  apply List.ext_getElem (by simp [newUids])
  intro i h1 h2
  rw [List.getElem_map]
  have hik : i < k := by simpa using h2
  simp only [newUids, List.getElem_range', Nat.one_mul]
  rw [DynamicView.setPos_view_getD_at _ p.issued k i _ _ (by simp) hik
    (by unfold issued; rw [DynamicView.grow_n]) (DynamicView.grow_WF _ _ hum)]
  exact getD_range' _ _ _ _ hik

theorem grow_uidAt_old (p : People α) (k : Nat) (p' : People α)
    (hum : p.uid_map.WF) (huv : p.uids.WF) (h : p.grow k = some p')
    (j : Nat) (hj : j < p.count) :
    p'.uidAt j = p.uidAt j := by
  obtain ⟨_, he2, _⟩ := grow_eq p k p' h
  unfold uidAt
  rw [he2, grow_mapped_eq p k hum]
  rw [DynamicView.setPos_view_getD_out _ p.count k _ _ _ (by simp [newUids])
    (by rw [DynamicView.grow_n]; unfold count at hj; omega) (Or.inl hj),
    DynamicView.grow_view_getD _ _ _ _ huv hj]

theorem grow_uidAt_new (p : People α) (k : Nat) (p' : People α)
    (hum : p.uid_map.WF) (huv : p.uids.WF) (h : p.grow k = some p')
    (i : Nat) (hi : i < k) :
    p'.uidAt (p.count + i) = p.issued + i := by
  obtain ⟨_, he2, _⟩ := grow_eq p k p' h
  unfold uidAt
  rw [he2, grow_mapped_eq p k hum]
  rw [DynamicView.setPos_view_getD_at _ p.count k i _ _ (by simp [newUids]) hi
    (by unfold count; rw [DynamicView.grow_n]) (DynamicView.grow_WF _ _ huv)]
  simp only [newUids]
  exact getD_range' _ _ _ _ hi

theorem Inv_grow (p : People α) (k : Nat) (p' : People α)
    (hInv : p.Inv) (hcap : p.issued + k < INT_NAN) (h : p.grow k = some p') :
    p'.Inv ∧ p'.issued = p.issued + k ∧ p'.count = p.count + k ∧
    p'.states.length = p.states.length := by
  have hInv' := hInv
  obtain ⟨hum, huv, hcnt, hiss, hsts, hA6, hA7⟩ := hInv'
  obtain ⟨he1, he2, he3⟩ := grow_eq p k p' h
  have hiss' := grow_issued p k p' h
  have hcnt' := grow_count p k p' h
  have hlen' : p'.states.length = p.states.length := growStates_length _ _ _ he3
  refine ⟨⟨?_, ?_, ?_, ?_, ?_, ?_, ?_⟩, hiss', hcnt', hlen'⟩
  · rw [he1]
    exact DynamicView.setPos_WF _ _ _ (DynamicView.grow_WF _ _ hum)
  · rw [he2]
    exact DynamicView.setPos_WF _ _ _ (DynamicView.grow_WF _ _ huv)
  · rw [hiss', hcnt']
    unfold count issued at hcnt ⊢
    omega
  · rw [hiss']
    exact hcap
  · intro s' hs'
    obtain ⟨s, hs, hgr⟩ := growStates_mem _ _ _ he3 s' hs'
    obtain ⟨hf, hn, hfv, hwf⟩ := StateD.grow_fields s s' _ hgr
    have h5 := hsts s hs
    constructor
    · rw [hn, h5.1, hcnt']
      simp [newUids]
    · exact hwf h5.2
  · intro j hj
    rw [hcnt'] at hj
    by_cases hlt : j < p.count
    · rw [grow_uidAt_old p k p' hum huv h j hlt]
      have h6 := hA6 j hlt
      refine ⟨by omega, ?_⟩
      rw [grow_lookup_old p k p' hum h _ h6.1]
      exact h6.2
    · have hj' : j = p.count + (j - p.count) := by omega
      have hik : j - p.count < k := by omega
      rw [hj', grow_uidAt_new p k p' hum huv h _ hik]
      refine ⟨by omega, ?_⟩
      rw [grow_lookup_new p k p' hum h _ hik]
  · intro u hu hnan
    rw [hiss'] at hu
    by_cases hlt : u < p.issued
    · rw [grow_lookup_old p k p' hum h _ hlt] at hnan ⊢
      have h7 := hA7 u hlt hnan
      rw [grow_uidAt_old p k p' hum huv h _ h7.1]
      refine ⟨by rw [hcnt']; omega, h7.2⟩
    · have hu' : u = p.issued + (u - p.issued) := by omega
      have hik : u - p.issued < k := by omega
      rw [hu', grow_lookup_new p k p' hum h _ hik]
      rw [grow_uidAt_new p k p' hum huv h _ hik]
      refine ⟨by rw [hcnt']; omega, by omega⟩

theorem survivors_sub (p : People α) (rm : List Nat) :
    ∀ u ∈ p.survivors rm, u ∈ p.uids.view := by
  intro u hu
  exact (List.mem_filter.mp hu).1

theorem survivors_not_rm (p : People α) (rm : List Nat) :
    ∀ u ∈ p.survivors rm, u ∉ rm := by
  intro u hu
  have h2 := (List.mem_filter.mp hu).2
  simpa [List.contains] using h2

theorem survivors_nodup (p : People α) (rm : List Nat) (hInv : p.Inv) :
    (p.survivors rm).Nodup :=
  (uidsView_nodup p hInv).filter _

theorem survivors_length_le (p : People α) (rm : List Nat) (huv : p.uids.WF) :
    (p.survivors rm).length ≤ p.count := by
  have h1 := List.length_filter_le (fun u => !(rm.contains u)) p.uids.view
  rw [DynamicView.view_length _ huv] at h1
  exact h1

theorem keepInds_getD (p : People α) (rm : List Nat) (hInv : p.Inv) (j : Nat)
    (hj : j < (p.survivors rm).length) :
    ((p.survivors rm).map (fun u => p.uid_map.view.getD u 0)).getD j 0
      = p.lookup ((p.survivors rm).getD j 0) := by
  rw [getD_map_lt _ _ _ _ 0 hj]
  have hmem : (p.survivors rm).getD j 0 ∈ p.survivors rm := getD_mem _ _ _ hj
  have hs := view_mem_spec p hInv _ (survivors_sub p rm _ hmem)
  unfold lookup
  exact getD_default_irrel _ _ _ _
    (by rw [DynamicView.view_length _ hInv.1]; exact hs.1)

theorem remove_issued (p : People α) (rm : List Nat) :
    (p.remove rm).issued = p.issued := rfl

theorem remove_count (p : People α) (rm : List Nat) :
    (p.remove rm).count = (p.survivors rm).length := by
  show (p.uids.trim _).n = _
  rw [DynamicView.trim_n, List.length_map]

theorem remove_uid_map_eq (p : People α) (rm : List Nat) :
    (p.remove rm).uid_map = (p.uid_map.fillView INT_NAN).setPos (p.survivors rm)
      (List.range (p.survivors rm).length) := rfl

theorem remove_uids_eq (p : People α) (rm : List Nat) :
    (p.remove rm).uids = p.uids.trim
      ((p.survivors rm).map (fun u => p.uid_map.view.getD u 0)) := rfl

theorem remove_states_eq (p : People α) (rm : List Nat) :
    (p.remove rm).states = p.states.map (fun s => s.trimS
      ((p.survivors rm).map (fun u => p.uid_map.view.getD u 0))) := rfl

theorem remove_uidsView (p : People α) (rm : List Nat) (hInv : p.Inv) :
    (p.remove rm).uids.view = p.survivors rm := by
  have hInv' := hInv
  obtain ⟨hum, huv, hcnt, hiss, hsts, hA6, hA7⟩ := hInv'
  rw [remove_uids_eq]
  have hkl : ((p.survivors rm).map (fun u => p.uid_map.view.getD u 0)).length
      = (p.survivors rm).length := List.length_map _ _
  apply List.ext_getElem
  · rw [DynamicView.view_length _ (DynamicView.trim_WF _ _
      (by rw [hkl]; exact survivors_length_le p rm huv) huv), DynamicView.trim_n, hkl]
  · intro j h1 h2
    have hj : j < (p.survivors rm).length := by
      have hL := DynamicView.view_length (p.uids.trim
        ((p.survivors rm).map (fun u => p.uid_map.view.getD u 0)))
        (DynamicView.trim_WF _ _ (by rw [hkl]; exact survivors_length_le p rm huv) huv)
      rw [hL, DynamicView.trim_n, hkl] at h1
      exact h1
    rw [← getD_eq_getElem _ _ 0 h1, ← getD_eq_getElem _ _ 0 h2]
    rw [DynamicView.trim_view, getD_map_lt _ _ _ _ 0 (by rw [hkl]; exact hj),
      keepInds_getD p rm hInv j hj]
    have hmem : (p.survivors rm).getD j 0 ∈ p.survivors rm := getD_mem _ _ _ hj
    have hs := view_mem_spec p hInv _ (survivors_sub p rm _ hmem)
    have huvn : p.lookup ((p.survivors rm).getD j 0) < p.uids.n := hs.2.1
    rw [← DynamicView.view_getD_eq _ _ _ huvn,
      getD_default_irrel _ _ _ 0 (by rw [DynamicView.view_length _ huv]; exact huvn)]
    exact hs.2.2.1

theorem remove_lookup_mem (p : People α) (rm : List Nat) (hInv : p.Inv) (j : Nat)
    (hj : j < (p.survivors rm).length) :
    (p.remove rm).lookup ((p.survivors rm).getD j 0) = j := by
  have hInv' := hInv
  obtain ⟨hum, huv, hcnt, hiss, hsts, hA6, hA7⟩ := hInv'
  unfold lookup
  rw [remove_uid_map_eq]
  rw [DynamicView.setPos_view_getD_mem_nodup (p.uid_map.fillView INT_NAN) (p.survivors rm)
    (List.range (p.survivors rm).length) j INT_NAN (survivors_nodup p rm hInv) hj
    (by simp)
    (fun x hx => (view_mem_spec p hInv x (survivors_sub p rm x hx)).1)
    (DynamicView.fillView_WF _ _ hum)]
  exact getD_range _ _ _ hj

theorem remove_lookup_not_mem (p : People α) (rm : List Nat)
    (u : Nat) (hu : u < p.issued) (hnm : u ∉ p.survivors rm) :
    (p.remove rm).lookup u = INT_NAN := by
  unfold lookup
  rw [remove_uid_map_eq]
  rw [DynamicView.setPos_view_getD_not_mem (p.uid_map.fillView INT_NAN) (p.survivors rm)
      (List.range (p.survivors rm).length) u INT_NAN (by simp) hu hnm,
    DynamicView.view_getD_eq (p.uid_map.fillView INT_NAN) u INT_NAN
      (by rw [DynamicView.fillView_n]; exact hu),
    DynamicView.fillView_data_getD_lt _ _ _ _ hu]

theorem Inv_remove (p : People α) (rm : List Nat) (hInv : p.Inv) :
    (p.remove rm).Inv ∧ (p.remove rm).issued = p.issued ∧
    (p.remove rm).count = (p.survivors rm).length := by
  have hInv' := hInv
  obtain ⟨hum, huv, hcnt, hiss, hsts, hA6, hA7⟩ := hInv'
  have hcount := remove_count p rm
  have hkl : ((p.survivors rm).map (fun u => p.uid_map.view.getD u 0)).length
      = (p.survivors rm).length := List.length_map _ _
  have hmle : (p.survivors rm).length ≤ p.count := survivors_length_le p rm huv
  refine ⟨⟨?_, ?_, ?_, ?_, ?_, ?_, ?_⟩, remove_issued p rm, hcount⟩
  · rw [remove_uid_map_eq]
    exact DynamicView.setPos_WF _ _ _ (DynamicView.fillView_WF _ _ hum)
  · rw [remove_uids_eq]
    exact DynamicView.trim_WF _ _ (by rw [hkl]; exact hmle) huv
  · rw [hcount, remove_issued]
    omega
  · rw [remove_issued]
    exact hiss
  · intro s' hs'
    rw [remove_states_eq] at hs'
    obtain ⟨s, hs, rfl⟩ := List.mem_map.mp hs'
    have h5 := hsts s hs
    constructor
    · show (s.dv.trim _).n = _
      rw [DynamicView.trim_n, hkl, hcount]
    · show (s.dv.trim _).WF
      exact DynamicView.trim_WF _ _ (by rw [hkl, h5.1]; exact hmle) h5.2
  · intro j hj
    rw [hcount] at hj
    have hAt : (p.remove rm).uidAt j = (p.survivors rm).getD j 0 := by
      unfold uidAt
      rw [remove_uidsView p rm hInv]
    rw [hAt]
    have hmem : (p.survivors rm).getD j 0 ∈ p.survivors rm := getD_mem _ _ _ hj
    have hs := view_mem_spec p hInv _ (survivors_sub p rm _ hmem)
    refine ⟨by rw [remove_issued]; exact hs.1, ?_⟩
    exact remove_lookup_mem p rm hInv j hj
  · intro u hu hnan
    rw [remove_issued] at hu
    by_cases hmem : u ∈ p.survivors rm
    · obtain ⟨j, hj, hju⟩ := (mem_iff_getD _ _).mp hmem
      have hl : (p.remove rm).lookup u = j := by
        rw [← hju]
        exact remove_lookup_mem p rm hInv j hj
      rw [hl, hcount]
      refine ⟨hj, ?_⟩
      unfold uidAt
      rw [remove_uidsView p rm hInv]
      exact hju
    · exact absurd (remove_lookup_not_mem p rm u hu hmem) hnan

theorem register_dv (fp : FillPolicy α) (fv : α) (uids : List Nat) :
    (StateD.register fp fv uids).dv.n = uids.length ∧
    (StateD.register fp fv uids).dv.WF := by
  unfold StateD.register
  refine ⟨by simp, ?_⟩
  apply DynamicView.setPos_WF
  apply DynamicView.grow_WF
  unfold DynamicView.WF
  simp

theorem Inv_initial (specs : List (FillPolicy α × α)) (n : Nat) (hn : n < INT_NAN) :
    (initial specs n).Inv ∧ (initial specs n).issued = n ∧
    (initial specs n).count = n := by
  have hwm : (initial specs n).uid_map.WF := by
    unfold initial DynamicView.WF
    simp
  have hwv : (initial specs n).uids.WF := by
    unfold initial DynamicView.WF
    simp
  have hlook : ∀ u, u < n → (initial specs n).lookup u = u := by
    intro u hu
    unfold lookup
    rw [DynamicView.view_getD_eq _ _ _ (show u < (initial specs n).uid_map.n from hu)]
    exact getD_range _ _ _ hu
  have hat : ∀ j, j < n → (initial specs n).uidAt j = j := by
    intro j hj
    unfold uidAt
    rw [DynamicView.view_getD_eq _ _ _ (show j < (initial specs n).uids.n from hj)]
    exact getD_range _ _ _ hj
  refine ⟨⟨hwm, hwv, Nat.le_refl n, hn, ?_, ?_, ?_⟩, rfl, rfl⟩
  · intro s hs
    obtain ⟨sp, hsp, rfl⟩ := List.mem_map.mp hs
    have hr := register_dv sp.1 sp.2 (List.range n)
    exact ⟨by rw [hr.1, List.length_range]; rfl, hr.2⟩
  · intro j hj
    rw [hat j hj, hlook j hj]
    exact ⟨hj, rfl⟩
  · intro u hu hnan
    rw [hlook u hu] at hnan ⊢
    rw [hat u hu]
    exact ⟨hu, rfl⟩

theorem Inv_run (p : People α) (ops : List Op) (p' : People α)
    (hInv : p.Inv) (hcap : p.issued + growSum ops < INT_NAN)
    (h : p.run ops = some p') :
    p'.Inv ∧ p'.issued ≤ p.issued + growSum ops := by
  induction ops generalizing p with
  | nil =>
    unfold run at h
    injection h with h
    subst h
    exact ⟨hInv, by unfold growSum; omega⟩
  | cons op ops ih =>
    cases op with
    | grow n =>
      unfold run at h
      cases hg : p.grow n with
      | none => rw [hg] at h; cases h
      | some q =>
        rw [hg] at h
        have hcap1 : p.issued + n < INT_NAN := by unfold growSum at hcap; omega
        have hG := Inv_grow p n q hInv hcap1 hg
        have hq := hG.2.1
        have hrec := ih q hG.1 (by unfold growSum at hcap; omega) h
        have hr2 := hrec.2
        refine ⟨hrec.1, ?_⟩
        unfold growSum
        omega
    | remove us =>
      unfold run at h
      have hR := Inv_remove p us hInv
      have hriss := hR.2.1
      have hrec := ih (p.remove us) hR.1 (by rw [hriss]; unfold growSum at hcap; omega) h
      have hr2 := hrec.2
      refine ⟨hrec.1, ?_⟩
      unfold growSum
      omega

/-- From the invariant: every live identifier resolves through the
identity map to a position inside the live view, and reading any
registered column at that identifier yields exactly the value stored at
that position of the column's live view. -/
theorem Inv_colGet [Inhabited α] (p : People α) (hInv : p.Inv) (u : Nat)
    (hu : u ∈ p.uids.view) :
    p.lookup u < p.count ∧ p.lookup u ≠ INT_NAN ∧
    ∀ i, i < p.states.length → p.colGet i u = .ok (.scalar (p.colVal i (p.lookup u))) := by
  have hs := view_mem_spec p hInv u hu
  obtain ⟨hum, huv, hcnt, hiss, hsts, hA6, hA7⟩ := hInv
  refine ⟨hs.2.1, hs.2.2.2, ?_⟩
  intro i hi
  have hmem : p.states.getD i default ∈ p.states := getD_mem _ _ _ hi
  have h5 := hsts _ hmem
  unfold colGet colFused colVal
  rw [FusedArray.getitem]
  dsimp only
  rw [if_pos (show u < p.uid_map.view.length by
    rw [DynamicView.view_length _ hum]; exact hs.1)]
  have hid : p.uid_map.view.getD u 0 = p.lookup u := by
    unfold lookup
    exact getD_default_irrel _ _ _ _ (by rw [DynamicView.view_length _ hum]; exact hs.1)
  rw [hid, if_neg hs.2.2.2,
    if_pos (show p.lookup u < (p.states.getD i default).dv.view.length by
      rw [DynamicView.view_length _ h5.2, h5.1]; exact hs.2.1)]

theorem remove_colVal [Inhabited α] (p : People α) (rm : List Nat) (hInv : p.Inv)
    (i : Nat) (hi : i < p.states.length) (j : Nat) (hj : j < (p.survivors rm).length) :
    (p.remove rm).colVal i j
      = p.colVal i (p.lookup ((p.survivors rm).getD j 0)) := by
  have hInv' := hInv
  obtain ⟨hum, huv, hcnt, hiss, hsts, hA6, hA7⟩ := hInv'
  have hkl : ((p.survivors rm).map (fun u => p.uid_map.view.getD u 0)).length
      = (p.survivors rm).length := List.length_map _ _
  have h5 := hsts _ (getD_mem p.states i default hi)
  unfold colVal
  rw [remove_states_eq, getD_map_lt _ _ _ _ default hi]
  show ((p.states.getD i default).dv.trim _).view.getD j default = _
  rw [DynamicView.trim_view, getD_map_lt _ _ _ _ 0 (by rw [hkl]; exact hj),
    keepInds_getD p rm hInv j hj]
  have hmem : (p.survivors rm).getD j 0 ∈ p.survivors rm := getD_mem _ _ _ hj
  have hs := view_mem_spec p hInv _ (survivors_sub p rm _ hmem)
  have hlt : p.lookup ((p.survivors rm).getD j 0) < (p.states.getD i default).dv.n := by
    rw [h5.1]
    exact hs.2.1
  rw [← DynamicView.view_getD_eq _ _ _ hlt]
  exact getD_default_irrel _ _ _ _ (by rw [DynamicView.view_length _ h5.2]; exact hlt)

theorem colGet_dead [Inhabited α] (p : People α) (hum : p.uid_map.WF) (i u : Nat)
    (hu : u < p.issued) (hnan : p.lookup u = INT_NAN) :
    p.colGet i u = .error .identifierNotFound := by
  unfold colGet colFused
  rw [FusedArray.getitem]
  dsimp only
  rw [if_pos (show u < p.uid_map.view.length by
    rw [DynamicView.view_length _ hum]; exact hu)]
  have hid : p.uid_map.view.getD u 0 = p.lookup u :=
    getD_default_irrel _ _ _ _ (by rw [DynamicView.view_length _ hum]; exact hu)
  rw [hid, if_pos hnan]

end People

/-- Claim C2 (removal correctness), proved of `People.remove`: after
`remove(S)` the live count equals the old count minus the number of live
identifiers in `S`; every surviving identifier resolves in every
registered column to exactly the value it had before the removal; and
getting any removed identifier thereafter raises the identifier-not-found
error. -/
theorem C2_removal_correctness [Inhabited α] (p : People α) (rm : List Nat)
    (hInv : p.Inv) :
    (p.remove rm).count
      = p.count - (p.uids.view.filter (fun u => rm.contains u)).length ∧
    (∀ u ∈ p.uids.view, u ∉ rm →
      ∀ i, i < p.states.length → (p.remove rm).colGet i u = p.colGet i u) ∧
    (∀ u ∈ p.uids.view, u ∈ rm →
      (p.remove rm).lookup u = INT_NAN ∧
      ∀ i, i < p.states.length →
        (p.remove rm).colGet i u = .error .identifierNotFound) := by
  have hInv' := hInv
  obtain ⟨hum, huv, hcnt, hiss, hsts, hA6, hA7⟩ := hInv'
  have hR := People.Inv_remove p rm hInv
  refine ⟨?_, ?_, ?_⟩
  · rw [People.remove_count]
    have hpart := length_filter_not_add p.uids.view (fun u => rm.contains u)
    rw [DynamicView.view_length _ huv] at hpart
    have hcc : p.count = p.uids.n := rfl
    have hsl : (p.survivors rm).length
        = (p.uids.view.filter (fun u => !(rm.contains u))).length := rfl
    omega
  · intro u hu hnm i hi
    have hsurv : u ∈ p.survivors rm := by
      apply List.mem_filter.mpr
      exact ⟨hu, by simpa [List.contains] using hnm⟩
    obtain ⟨j, hj, hju⟩ := (mem_iff_getD _ _).mp hsurv
    have hmem' : u ∈ (p.remove rm).uids.view := by
      rw [People.remove_uidsView p rm hInv]
      exact hsurv
    have hI := People.Inv_colGet (p.remove rm) hR.1 u hmem'
    have hIp := People.Inv_colGet p hInv u hu
    have hlem : (p.remove rm).lookup u = j := by
      rw [← hju]
      exact People.remove_lookup_mem p rm hInv j hj
    rw [hI.2.2 i (by rw [People.remove_states_eq, List.length_map]; exact hi), hlem,
      People.remove_colVal p rm hInv i hi j hj, hju, hIp.2.2 i hi]
  · intro u hu hrm
    have hnm : u ∉ p.survivors rm := by
      intro hmem
      exact People.survivors_not_rm p rm u hmem hrm
    have hs := People.view_mem_spec p hInv u hu
    have hnan := People.remove_lookup_not_mem p rm u hs.1 hnm
    refine ⟨hnan, fun i hi => ?_⟩
    exact People.colGet_dead (p.remove rm) hR.1.1 i u
      (by rw [People.remove_issued]; exact hs.1) hnan

def c2p : People Nat := People.initial [(FillPolicy.perUid (fun u => 10 * (u + 1)), 0)] 3

/-- Witness for C2: three agents with column values `[10, 20, 30]`; remove
identifier 1 — the count drops to 2, identifier 2 keeps its value, and
identifier 1 becomes unreachable. -/
theorem C2_removal_correctness_witness :
    ((c2p.remove [1]).count
      = c2p.count - (c2p.uids.view.filter (fun u => [1].contains u)).length) ∧
    ((c2p.remove [1]).colGet 0 2 = c2p.colGet 0 2) ∧
    ((c2p.remove [1]).lookup 1 = INT_NAN) ∧
    ((c2p.remove [1]).colGet 0 1 = .error .identifierNotFound) := by
  have h := C2_removal_correctness c2p [1] (by decide)
  exact ⟨h.1, h.2.1 2 (by decide) (by decide) 0 (by decide),
    (h.2.2 1 (by decide) (by decide)).1,
    (h.2.2 1 (by decide) (by decide)).2 0 (by decide)⟩

namespace People

theorem grow_isSome (p : People α) (k : Nat) (hk : k ≠ 0) :
    (p.grow k).isSome = true := by
  have hgs := growStates_pos (p.newUids k) (by simpa [newUids] using hk) p.states
  simp only [grow]
  cases hg : growStates (p.newUids k) p.states with
  | none => rw [hg] at hgs; cases hgs
  | some sts => rfl

theorem grow_state_eq [Inhabited α] (p : People α) (k : Nat) (p' : People α)
    (h : p.grow k = some p') (hk : k ≠ 0) (i : Nat) (hi : i < p.states.length) :
    p'.states.getD i default
      = ⟨((p.states.getD i default).dv.grow k).setPos
          (List.range' (p.states.getD i default).dv.n k)
          (newVals (p.states.getD i default).fill (p.newUids k)),
         (p.states.getD i default).fill⟩ := by
  obtain ⟨_, _, he3⟩ := grow_eq p k p' h
  have hg := growStates_getD _ _ _ he3 i hi
  rw [StateD.grow_pos _ _ (by simpa [newUids] using hk)] at hg
  injection hg with hg
  rw [← hg]
  rw [show (p.newUids k).length = k from by simp [newUids]]

theorem grow_colVal_old [Inhabited α] (p : People α) (k : Nat) (p' : People α)
    (hInv : p.Inv) (h : p.grow k = some p') (hk : k ≠ 0)
    (i : Nat) (hi : i < p.states.length) (j : Nat) (hj : j < p.count) :
    p'.colVal i j = p.colVal i j := by
  have hInv' := hInv
  obtain ⟨hum, huv, hcnt, hiss, hsts, hA6, hA7⟩ := hInv'
  have h5 := hsts _ (getD_mem p.states i default hi)
  unfold colVal
  rw [grow_state_eq p k p' h hk i hi]
  dsimp only
  rw [DynamicView.setPos_view_getD_out _ (p.states.getD i default).dv.n k _ _ _
    (by rw [StateD.newVals_length]; simp [newUids])
    (by rw [DynamicView.grow_n]; rw [h5.1] at *; omega)
    (Or.inl (by rw [h5.1]; exact hj)),
    DynamicView.grow_view_getD _ _ _ _ h5.2 (by rw [h5.1]; exact hj)]

theorem grow_colVal_new [Inhabited α] (p : People α) (k : Nat) (p' : People α)
    (hInv : p.Inv) (h : p.grow k = some p') (hk : k ≠ 0)
    (i : Nat) (hi : i < p.states.length) (j : Nat) (hj : j < k) :
    p'.colVal i (p.count + j)
      = fillValAt (p.states.getD i default).fill (p.issued + j) := by
  have hInv' := hInv
  obtain ⟨hum, huv, hcnt, hiss, hsts, hA6, hA7⟩ := hInv'
  have h5 := hsts _ (getD_mem p.states i default hi)
  unfold colVal
  rw [grow_state_eq p k p' h hk i hi]
  dsimp only
  rw [show p.count + j = (p.states.getD i default).dv.n + j from by rw [h5.1]]
  rw [DynamicView.setPos_view_getD_at _ (p.states.getD i default).dv.n k j _ _
    (by rw [StateD.newVals_length]; simp [newUids]) hj
    (by rw [DynamicView.grow_n]) (DynamicView.grow_WF _ _ h5.2)]
  rw [StateD.newVals_getD _ _ _ _ (by simpa [newUids] using hj)]
  rw [show (p.newUids k).getD j 0 = p.issued + j from by
    simp only [newUids]; exact getD_range' _ _ _ _ hj]

end People

def c3p1 : People Nat :=
  ((People.initial [(FillPolicy.scalar 7, 0)] 1).setCol 0 (.uid 0) (.scalar 10)).1

def c3p2 : People Nat := (c3p1.grow 0).getD c3p1

/-- Claim C3 as stated (for every `n ≥ 0`) is refuted at a concrete
input: with a single scalar-fill column, set identifier 0's value to 10
and call `grow(0)`.  `State.grow` assigns `self._data[-n:] =
self._new_vals(uids)`; with `n = 0` the slice `[-0:]` covers the whole
live view, so the scalar fill value 7 is broadcast over it: the count is
unchanged, yet pre-existing identifier 0 now resolves to 7 instead of
10. -/
theorem C3_counterexample :
    (c3p1.colGet 0 0 = .ok (.scalar 10)) ∧
    ((c3p1.grow 0).isSome = true) ∧
    (c3p2.count = c3p1.count) ∧
    (c3p2.colGet 0 0 = .ok (.scalar 7)) := by
  decide

/-- Claim C3 (growth correctness, amended to `n ≥ 1`): after `grow(n)`
with `n ≥ 1` (and the identifier space below the sentinel), the grow
succeeds, the count increases by exactly `n`, the issued identifiers are
fresh (strictly greater than every previously issued identifier), every
pre-existing identifier resolves to the same value as before in every
registered column, and each new position holds the value the column's
fill policy produces for its new identifier.  (The amendment excludes
`n = 0`, where the `[-n:]` assignment in `State.grow` degenerates and a
scalar fill overwrites the whole column, as the counterexample shows.) -/
theorem C3_growth_correctness [Inhabited α] (p : People α) (k : Nat)
    (hInv : p.Inv) (hk : 1 ≤ k) (hcap : p.issued + k < INT_NAN) :
    (p.grow k).isSome = true ∧
    (p.growD k).count = p.count + k ∧
    (∀ v ∈ p.newUids k, ∀ w, w < p.issued → w < v) ∧
    (∀ u ∈ p.uids.view, ∀ i, i < p.states.length →
      (p.growD k).colGet i u = p.colGet i u) ∧
    (∀ j, j < k → ∀ i, i < p.states.length →
      (p.growD k).colGet i (p.issued + j)
        = .ok (.scalar (fillValAt (p.states.getD i default).fill (p.issued + j)))) := by
  have hInv' := hInv
  obtain ⟨hum, huv, hcnt, hiss, hsts, hA6, hA7⟩ := hInv'
  have hk0 : k ≠ 0 := by omega
  have hsome := People.grow_isSome p k hk0
  obtain ⟨q, hq⟩ := Option.isSome_iff_exists.mp hsome
  have hgd : p.growD k = q := by
    unfold People.growD
    rw [hq]
    rfl
  have hG := People.Inv_grow p k q hInv hcap hq
  refine ⟨hsome, by rw [hgd]; exact hG.2.2.1, ?_, ?_, ?_⟩
  · intro v hv w hw
    rw [People.newUids, List.mem_range'_1] at hv
    omega
  · intro u hu i hi
    rw [hgd]
    have hs := People.view_mem_spec p hInv u hu
    have hmem' : u ∈ q.uids.view := by
      rw [mem_iff_getD]
      refine ⟨p.lookup u, ?_, ?_⟩
      · rw [DynamicView.view_length _ hG.1.2.1]
        have : q.count = p.count + k := hG.2.2.1
        show p.lookup u < q.uids.n
        have hqc : q.uids.n = q.count := rfl
        omega
      · have hAt := People.grow_uidAt_old p k q hum huv hq (p.lookup u) hs.2.1
        rw [show q.uids.view.getD (p.lookup u) 0 = q.uidAt (p.lookup u) from rfl, hAt]
        exact hs.2.2.1
    have hI := People.Inv_colGet q hG.1 u hmem'
    have hIp := People.Inv_colGet p hInv u hu
    have hlq : q.lookup u = p.lookup u := People.grow_lookup_old p k q hum hq u hs.1
    rw [hI.2.2 i (by rw [hG.2.2.2]; exact hi), hlq,
      People.grow_colVal_old p k q hInv hq hk0 i hi _ hs.2.1, hIp.2.2 i hi]
  · intro j hj i hi
    rw [hgd]
    have hlq : q.lookup (p.issued + j) = p.count + j :=
      People.grow_lookup_new p k q hum hq j hj
    have hmem' : p.issued + j ∈ q.uids.view := by
      rw [mem_iff_getD]
      refine ⟨p.count + j, ?_, ?_⟩
      · rw [DynamicView.view_length _ hG.1.2.1]
        have : q.count = p.count + k := hG.2.2.1
        show p.count + j < q.uids.n
        have hqc : q.uids.n = q.count := rfl
        omega
      · have hAt := People.grow_uidAt_new p k q hum huv hq j hj
        rw [show q.uids.view.getD (p.count + j) 0 = q.uidAt (p.count + j) from rfl, hAt]
    have hI := People.Inv_colGet q hG.1 (p.issued + j) hmem'
    rw [hI.2.2 i (by rw [hG.2.2.2]; exact hi), hlq,
      People.grow_colVal_new p k q hInv hq hk0 i hi j hj]

def c3wp : People Nat := People.initial [(FillPolicy.scalar 7, 0)] 1

/-- Witness for the amended C3 at a concrete input: one agent, grow by 2. -/
theorem C3_growth_correctness_witness :
    ((c3wp.grow 2).isSome = true) ∧
    ((c3wp.growD 2).count = c3wp.count + 2) ∧
    (∀ v ∈ c3wp.newUids 2, ∀ w, w < c3wp.issued → w < v) ∧
    (∀ u ∈ c3wp.uids.view, ∀ i, i < c3wp.states.length →
      (c3wp.growD 2).colGet i u = c3wp.colGet i u) ∧
    (∀ j, j < 2 → ∀ i, i < c3wp.states.length →
      (c3wp.growD 2).colGet i (c3wp.issued + j)
        = .ok (.scalar (fillValAt (c3wp.states.getD i default).fill (c3wp.issued + j)))) :=
  C3_growth_correctness c3wp 2 (by decide) (by decide) (by decide)

theorem zip_range_pair_mem (l : List Nat) (j : Nat) (hj : j < l.length) :
    (l.getD j 0, j) ∈ l.zip (List.range l.length) := by
  rw [List.mem_iff_getElem]
  refine ⟨j, by simp [hj], ?_⟩
  rw [List.getElem_zip, getD_eq_getElem _ _ _ hj]
  simp

theorem fillView_data_getD_ge (dv : DynamicView α) (c : α) (i : Nat) (d : α)
    (h : dv.n ≤ i) : (dv.fillView c).data.getD i d = dv.data.getD i d := by
  show (List.replicate dv.n c ++ dv.data.drop dv.n).getD i d = _
  rw [List.getD_eq_getElem?_getD, List.getElem?_append_right (by simpa using h),
    List.length_replicate, List.getElem?_drop, Nat.add_sub_cancel' h,
    ← List.getD_eq_getElem?_getD]

theorem People.eq_of_parts (a b : People α) (h1 : a.uid_map = b.uid_map)
    (h2 : a.uids = b.uids) (h3 : a.states = b.states) : a = b := by
  cases a
  cases b
  simp_all

namespace People

/-- Removing a set of identifiers none of which is live leaves the
population exactly as it was: the survivor set is the whole live view,
every column is compacted onto its own positions, and the identity map is
rebuilt to its previous contents. -/
theorem remove_disjoint (p : People α) (rm : List Nat) (hInv : p.Inv)
    (hdis : ∀ u ∈ rm, u ∉ p.uids.view) : p.remove rm = p := by
  have hInv' := hInv
  obtain ⟨hum, huv, hcnt, hiss, hsts, hA6, hA7⟩ := hInv'
  have hsur : p.survivors rm = p.uids.view := by
    unfold survivors
    apply List.filter_eq_self.mpr
    intro u hu
    have hnm : u ∉ rm := fun hr => hdis u hr hu
    simpa [List.contains] using hnm
  have hkeep : (p.survivors rm).map (fun u => p.uid_map.view.getD u 0)
      = List.range p.count := by
    rw [hsur]
    apply List.ext_getElem
    · rw [List.length_map, DynamicView.view_length _ huv, List.length_range]
      rfl
    · intro j h1 h2
      rw [List.getElem_map, List.getElem_range]
      have hj : j < p.count := by
        rw [List.length_map, DynamicView.view_length _ huv] at h1
        exact h1
      rw [← getD_eq_getElem _ _ 0 (by rw [DynamicView.view_length _ huv]; exact hj)]
      have h6 := hA6 j hj
      have he : p.uid_map.view.getD (p.uidAt j) 0 = p.lookup (p.uidAt j) :=
        getD_default_irrel _ _ _ _ (by rw [DynamicView.view_length _ hum]; exact h6.1)
      show p.uid_map.view.getD (p.uidAt j) 0 = j
      rw [he, h6.2]
  have e_uids : (p.remove rm).uids = p.uids := by
    rw [remove_uids_eq, hkeep]
    exact DynamicView.trim_range_self _ huv
  have e_states : (p.remove rm).states = p.states := by
    rw [remove_states_eq, hkeep]
    have hpt : ∀ s ∈ p.states, s.trimS (List.range p.count) = s := by
      intro s hs
      have h5 := hsts s hs
      unfold StateD.trimS
      rw [show (List.range p.count) = List.range s.dv.n from by rw [h5.1]]
      rw [DynamicView.trim_range_self _ h5.2]
    rw [List.map_congr_left hpt]
    exact List.map_id _
  have e_um : (p.remove rm).uid_map = p.uid_map := by
    rw [remove_uid_map_eq, hsur]
    refine DynamicView.eq_of_fields _ _ rfl rfl ?_
    apply List.ext_getElem
    · rw [DynamicView.setPos_data, setMany_length, DynamicView.fillView_data_length _ _ hum]
    · intro i h1 h2
      rw [← getD_eq_getElem _ _ INT_NAN h1, ← getD_eq_getElem _ _ INT_NAN h2]
      show (setMany (p.uid_map.fillView INT_NAN).data
        (p.uids.view.zip (List.range p.uids.view.length))).getD i INT_NAN
        = p.uid_map.data.getD i INT_NAN
      by_cases hiN : i < p.uid_map.n
      · by_cases hmem : i ∈ p.uids.view
        · obtain ⟨j, hj, hji⟩ := (mem_iff_getD _ _).mp hmem
          have hpair : (i, j) ∈ p.uids.view.zip (List.range p.uids.view.length) := by
            rw [← hji]
            exact zip_range_pair_mem _ j hj
          rw [getD_setMany_mem_nodup _ _ i j INT_NAN
            (by rw [List.map_fst_zip _ _ (by simp)]; exact uidsView_nodup p hInv)
            hpair (by
              rw [DynamicView.fillView_data_length _ _ hum]
              unfold DynamicView.WF at hum
              omega)]
          rw [← DynamicView.view_getD_eq _ _ _ hiN]
          show j = p.lookup i
          have hjc : j < p.count := by
            rw [DynamicView.view_length _ huv] at hj
            exact hj
          have h6 := hA6 j hjc
          have hAt : p.uidAt j = i := hji
          rw [hAt] at h6
          exact h6.2.symm
        · rw [getD_setMany_zip_not_mem _ _ _ _ _ (by simp) hmem,
            DynamicView.fillView_data_getD_lt _ _ _ _ hiN]
          rw [← DynamicView.view_getD_eq _ _ _ hiN]
          show INT_NAN = p.lookup i
          by_contra hne
          have h7 := hA7 i hiN (fun hc => hne hc.symm)
          apply hmem
          rw [mem_iff_getD]
          exact ⟨p.lookup i, by rw [DynamicView.view_length _ huv]; exact h7.1, h7.2⟩
      · rw [getD_setMany_zip_not_mem _ _ _ _ _ (by simp)
          (fun hmem => absurd (view_mem_spec p hInv i hmem).1 (by
            have hII : p.issued = p.uid_map.n := rfl
            omega)),
          fillView_data_getD_ge _ _ _ _ (by omega)]
  exact People.eq_of_parts _ _ e_um e_uids e_states

end People

/-- Claim C4 (idempotence of removal), proved of `People.remove`: calling
`remove(S)` twice leaves the population unchanged after the second call —
the operation never raises, the count is unchanged, and no column value
changes (the populations are equal as structures); and more generally,
removing identifiers that are all already absent is a complete no-op. -/
theorem C4_remove_idempotent (p : People α) (rm : List Nat) (hInv : p.Inv) :
    (p.remove rm).remove rm = p.remove rm ∧
    ((∀ u ∈ rm, u ∉ p.uids.view) → p.remove rm = p) := by
  have hR := People.Inv_remove p rm hInv
  constructor
  · apply People.remove_disjoint _ rm hR.1
    intro u hu hmem
    rw [People.remove_uidsView p rm hInv] at hmem
    exact People.survivors_not_rm p rm u hmem hu
  · exact fun hdis => People.remove_disjoint p rm hInv hdis

/-- Witness for C4: removing identifier 1 twice from three agents equals
removing it once, and removing the never-issued identifier 5 is a no-op. -/
theorem C4_remove_idempotent_witness :
    ((c2p.remove [1]).remove [1] = c2p.remove [1]) ∧
    ((∀ u ∈ [5], u ∉ c2p.uids.view) → c2p.remove [5] = c2p) := by
  have h := C4_remove_idempotent c2p [1] (by decide)
  have h5 := C4_remove_idempotent c2p [5] (by decide)
  exact ⟨h.1, h5.2⟩

/-- Claim C1 (identity integrity invariant), proved of the coordinator:
starting from an initialized population and after any sequence of `grow`
and `remove` operations that succeeds (and keeps the issued-identifier
space below the `INT_NAN` sentinel, as 64-bit indices always do), every
currently-live identifier `u` looks up in the identity map to a position
strictly below the live count, and reading any registered column at `u`
returns exactly the value stored at that position of the column's live
view. -/
theorem C1_identity_integrity [Inhabited α] (specs : List (FillPolicy α × α))
    (n0 : Nat) (ops : List People.Op) (p : People α)
    (hcap : n0 + People.growSum ops < INT_NAN)
    (hrun : (People.initial specs n0).run ops = some p)
    (u : Nat) (hu : u ∈ p.uids.view) :
    p.lookup u < p.count ∧ p.lookup u ≠ INT_NAN ∧
    ∀ i, i < p.states.length →
      p.colGet i u = .ok (.scalar (p.colVal i (p.lookup u))) := by
  obtain ⟨hI0, hiss0, _⟩ := People.Inv_initial specs n0 (by omega)
  have hR := People.Inv_run (People.initial specs n0) ops p hI0
    (by rw [hiss0]; exact hcap) hrun
  exact People.Inv_colGet p hR.1 u hu

def c1p0 : People Nat := People.initial [(FillPolicy.scalar 7, 0)] 2

def c1ops : List People.Op := [.grow 1, .remove [0]]

def c1p : People Nat := (c1p0.run c1ops).getD c1p0

/-- Witness for C1: initialize 2 agents, grow by 1, remove identifier 0;
identifier 1 is still live and integrity holds for it. -/
theorem C1_identity_integrity_witness :
    (c1p0.run c1ops = some c1p) ∧ (1 ∈ c1p.uids.view) ∧
    (c1p.lookup 1 < c1p.count ∧ c1p.lookup 1 ≠ INT_NAN ∧
     ∀ i, i < c1p.states.length →
       c1p.colGet i 1 = .ok (.scalar (c1p.colVal i (c1p.lookup 1)))) :=
  ⟨rfl, by decide,
    C1_identity_integrity [(FillPolicy.scalar 7, 0)] 2 c1ops c1p (by decide) rfl 1 (by decide)⟩

end Starsim
